import Mathlib

/-!
Shallow embedding of the analytics core of the job-tracker REST API
(`src/routes/analytics.js`, the `Job` Mongoose model, and the interview
sub-route of the jobs router), together with proofs of the specified
properties of that core.

Conventions of the embedding:
* BSON dates are milliseconds since the Unix epoch (`Int`).
* A `$match` on the owner id is the `userRecords` filter; further `$match`
  conditions are further filters.
* A `$group` stage is `groupBy`: one group per distinct key, carrying the
  matching documents, from which the `$sum: 1` / `$push` / `$avg`
  accumulators are read off.
* A `$sort` stage is `sortLe` (any sorted permutation models the store's
  sort, whose tie order is unspecified).
* JS number arithmetic on counts and rates is modelled exactly over `ℚ`;
  `Math.round` is `⌊x + 1/2⌋`.
-/

namespace JobTracker

/-- Application status enum of the `Job` model (`status` field). -/
inductive Status
  | applied
  | interviewing
  | offered
  | rejected
  | withdrawn
deriving DecidableEq, Repr

/-- Interview type enum of the `interviewDates.type` field. -/
inductive InterviewType
  | phone
  | video
  | onsite
  | technical
  | behavioral
deriving DecidableEq, Repr

/-- Interview outcome enum of the `interviewDates.outcome` field. -/
inductive Outcome
  | passed
  | failed
  | pending
deriving DecidableEq, Repr

/-- One entry of a job's `interviewDates` array. -/
structure Interview where
  date : Int
  type : InterviewType
  notes : String := ""
  outcome : Outcome := .pending
deriving DecidableEq, Repr

/-- A job-application record: the fields of the Mongoose `jobSchema` that the
analytics routes read.  `user` is the owner's id. -/
structure Job where
  user : Nat
  title : String := ""
  company : String := ""
  location : Option String := none
  status : Status := .applied
  applicationDate : Int := 0
  followUpDate : Option Int := none
  interviewDates : List Interview := []
deriving DecidableEq, Repr

/-! ### Calendar arithmetic

The store's `$year` / `$month` / `$week` / `$quarter` operators extract UTC
calendar parts from a BSON date; this is the standard civil-from-days
computation on the day number of the timestamp. -/

def msPerDay : Int := 86400000

/-- Day number (days since 1970-01-01, floor) of an epoch-millisecond timestamp. -/
def daysOfMs (ms : Int) : Int := Int.fdiv ms msPerDay

/-- Gregorian calendar date `(year, month, day)` of a day number. -/
def civilOfDays (d : Int) : Int × Nat × Nat :=
  let z := d + 719468
  let era := Int.fdiv z 146097
  let doe := z - era * 146097
  let yoe := Int.fdiv (doe - Int.fdiv doe 1460 + Int.fdiv doe 36524 - Int.fdiv doe 146096) 365
  let y := yoe + era * 400
  let doy := doe - (365 * yoe + Int.fdiv yoe 4 - Int.fdiv yoe 100)
  let mp := Int.fdiv (5 * doy + 2) 153
  let dd := doy - Int.fdiv (153 * mp + 2) 5 + 1
  let m := if mp < 10 then mp + 3 else mp - 9
  ((if m ≤ 2 then y + 1 else y), m.toNat, dd.toNat)

/-- Day number of a Gregorian calendar date (inverse of `civilOfDays`). -/
def daysOfCivil (y : Int) (m : Nat) (d : Nat) : Int :=
  let y1 := if m ≤ 2 then y - 1 else y
  let era := Int.fdiv y1 400
  let yoe := y1 - era * 400
  let mp : Int := if 2 < m then (m : Int) - 3 else (m : Int) + 9
  let doy := Int.fdiv (153 * mp + 2) 5 + (d : Int) - 1
  let doe := yoe * 365 + Int.fdiv yoe 4 - Int.fdiv yoe 100 + doy
  era * 146097 + doe - 719468

/-- `$year` of a BSON date. -/
def yearOfMs (ms : Int) : Int := (civilOfDays (daysOfMs ms)).1

/-- `$month` of a BSON date (1..12). -/
def monthOfMs (ms : Int) : Nat := (civilOfDays (daysOfMs ms)).2.1

/-- Day of week of a BSON date, Sunday = 0 (1970-01-01 was a Thursday). -/
def dowOfMs (ms : Int) : Int := Int.emod (daysOfMs ms + 4) 7

/-- `$week` of a BSON date: week number 0..53, weeks starting on Sunday, the
days before the first Sunday of the year being week 0. -/
def weekOfMs (ms : Int) : Int :=
  let days := daysOfMs ms
  let doy0 := days - daysOfCivil (yearOfMs ms) 1 1
  Int.fdiv (doy0 + 7 - dowOfMs ms) 7

/-- `$quarter` of a BSON date (1..4). -/
def quarterOfMs (ms : Int) : Int := Int.fdiv ((monthOfMs ms : Int) - 1) 3 + 1

/-! ### Aggregation primitives -/

/-- Distinct values of a list, in order of first occurrence: the set of group
keys produced by a `$group` stage. -/
def distinctKeys {κ : Type} [DecidableEq κ] (ks : List κ) : List κ :=
  ks.foldl (fun acc k => if k ∈ acc then acc else acc ++ [k]) []

/-- A `$group` stage over the key function `key`: one output group per
distinct key value, carrying the documents having that key. -/
def groupBy {κ α : Type} [DecidableEq κ] (key : α → κ) (docs : List α) :
    List (κ × List α) :=
  (distinctKeys (docs.map key)).map fun k => (k, docs.filter fun d => decide (key d = k))

/-- Insertion step of `sortLe`. -/
def insertLe {α : Type} (le : α → α → Bool) (a : α) : List α → List α
  | [] => [a]
  | b :: bs => if le a b then a :: b :: bs else b :: insertLe le a bs

/-- Sort by the boolean comparison `le`: the model of a `$sort` stage. -/
def sortLe {α : Type} (le : α → α → Bool) : List α → List α
  | [] => []
  | a :: as => insertLe le a (sortLe le as)

/-- One step of the JS object-count idiom `acc[k] = (acc[k] || 0) + 1`. -/
def bump {κ : Type} [DecidableEq κ] (k : κ) : List (κ × Nat) → List (κ × Nat)
  | [] => [(k, 1)]
  | (a, n) :: rest => if a = k then (a, n + 1) :: rest else (a, n) :: bump k rest

/-- The JS reducer `list.reduce((acc, k) => { acc[k] = (acc[k] || 0) + 1; return acc }, {})`
building an insertion-ordered key→count object. -/
def tally {κ : Type} [DecidableEq κ] (l : List κ) : List (κ × Nat) :=
  l.foldl (fun acc k => bump k acc) []

/-- Reading `obj[k] || 0` off an association-list object. -/
def getCount {κ : Type} [DecidableEq κ] (obj : List (κ × Nat)) (k : κ) : Nat :=
  match obj.find? fun p => decide (p.1 = k) with
  | some p => p.2
  | none => 0

/-! ### Rounding -/

/-- JS `Math.round` on an exact rational: round half toward positive infinity. -/
def mathRound (x : ℚ) : ℤ := ⌊x + 1/2⌋

/-- The `Math.round(x * 100) / 100` two-decimal rounding used by every rate
computation of the analytics routes. -/
def round2 (x : ℚ) : ℚ := (mathRound (x * 100) : ℚ) / 100

/-- Rounding to two decimals with ties going away from zero (the rule the
specification prescribes for percentage values). -/
def roundHalfAway2 (x : ℚ) : ℚ :=
  if 0 ≤ x then (⌊x * 100 + 1/2⌋ : ℚ) / 100 else -((⌊(-x) * 100 + 1/2⌋ : ℚ) / 100)

/-! ### GET /analytics/stats -/

/-- The `$match { user: userId }` stage every analytics pipeline starts with:
the records owned by the requesting user, in store order. -/
def userRecords (jobs : List Job) (userId : Nat) : List Job :=
  jobs.filter fun j => decide (j.user = userId)

/-- `jobSchema.statics.getUserStats`: `$match` on the user then
`$group: { _id: '$status', count: { $sum: 1 } }`. -/
def getUserStats (jobs : List Job) (userId : Nat) : List (Status × Nat) :=
  (groupBy Job.status (userRecords jobs userId)).map fun g => (g.1, g.2.length)

/-- The stats object of GET /analytics/stats. -/
structure StatsObj where
  total : Nat
  applied : Nat
  interviewing : Nat
  offered : Nat
  rejected : Nat
  withdrawn : Nat
deriving DecidableEq, Repr

/-- The `statsObj` initializer of the stats handler (all six fields 0). -/
def initStats : StatsObj :=
  { total := 0, applied := 0, interviewing := 0, offered := 0, rejected := 0, withdrawn := 0 }

/-- Loop body of `stats.forEach(stat => { statsObj[stat._id] = stat.count;
statsObj.total += stat.count; })`. -/
def applyStat (o : StatsObj) (g : Status × Nat) : StatsObj :=
  let o1 :=
    match g.1 with
    | .applied => { o with applied := g.2 }
    | .interviewing => { o with interviewing := g.2 }
    | .offered => { o with offered := g.2 }
    | .rejected => { o with rejected := g.2 }
    | .withdrawn => { o with withdrawn := g.2 }
  { o1 with total := o1.total + g.2 }

/-- GET /analytics/stats handler. -/
def statsHandler (jobs : List Job) (userId : Nat) : StatsObj :=
  (getUserStats jobs userId).foldl applyStat initStats

/-- Projection of the per-status field of the stats object. -/
def statField : Status → StatsObj → Nat
  | .applied, o => o.applied
  | .interviewing, o => o.interviewing
  | .offered, o => o.offered
  | .rejected, o => o.rejected
  | .withdrawn, o => o.withdrawn

/-! ### GET /analytics/companies and /analytics/locations -/

/-- The `['offered', 'interviewing'].includes(status)` test. -/
def isSuccessStatus (st : Status) : Bool :=
  decide (st = .offered) || decide (st = .interviewing)

/-- The `$avg` accumulator over
`$divide: [{ $subtract: [new Date(), '$applicationDate'] }, 86400000]`. -/
def avgDays (now : Int) (ds : List Job) : ℚ :=
  (ds.map fun j => ((now - j.applicationDate : ℤ) : ℚ) / (msPerDay : ℚ)).sum / (ds.length : ℚ)

/-- Descending-count comparison of the `$sort: { count: -1 }` stage. -/
def countDesc {κ : Type} (a b : κ × List Job) : Bool :=
  decide (b.2.length ≤ a.2.length)

/-- Company groups of GET /analytics/companies: `$match` on the user,
`$group` by `$company`, `$sort { count: -1 }`, `$limit`. -/
def companyGroups (jobs : List Job) (userId : Nat) (limit : Nat) :
    List (String × List Job) :=
  (sortLe countDesc (groupBy Job.company (userRecords jobs userId))).take limit

/-- One element of the `companies` response array. -/
structure CompanyInsight where
  company : String
  totalApplications : Nat
  successRate : ℚ
  avgDaysSinceApplication : ℚ
  statusBreakdown : List (Status × Nat)
deriving DecidableEq, Repr

/-- GET /analytics/companies handler (the `companiesWithSuccessRate` map). -/
def companiesHandler (jobs : List Job) (userId : Nat) (now : Int) (limit : Nat) :
    List CompanyInsight :=
  (companyGroups jobs userId limit).map fun g =>
    let total : Nat := g.2.length
    let statuses := g.2.map Job.status
    let successful := (statuses.filter isSuccessStatus).length
    let successRate : ℚ := if 0 < total then ((successful : ℚ) / (total : ℚ)) * 100 else 0
    { company := g.1
      totalApplications := total
      successRate := round2 successRate
      avgDaysSinceApplication := round2 (avgDays now g.2)
      statusBreakdown := tally statuses }

/-- The `location: { $exists: true, $ne: '' }` condition of the locations
`$match` stage: the location field is present and not the empty string. -/
def hasLocation (j : Job) : Bool :=
  match j.location with
  | none => false
  | some s => decide (s ≠ "")

/-- Location groups of GET /analytics/locations: `$match` on user and
location, `$group` by `$location`, `$sort { count: -1 }` (no limit). -/
def locationGroups (jobs : List Job) (userId : Nat) : List (String × List Job) :=
  sortLe countDesc
    (groupBy (fun j => j.location.getD "") ((userRecords jobs userId).filter hasLocation))

/-- One element of the `locations` response array. -/
structure LocationInsight where
  location : String
  totalApplications : Nat
  successRate : ℚ
  statusBreakdown : List (Status × Nat)
deriving DecidableEq, Repr

/-- GET /analytics/locations handler (the `locationsWithSuccessRate` map). -/
def locationsHandler (jobs : List Job) (userId : Nat) : List LocationInsight :=
  (locationGroups jobs userId).map fun g =>
    let total : Nat := g.2.length
    let statuses := g.2.map Job.status
    let successful := (statuses.filter isSuccessStatus).length
    let successRate : ℚ := if 0 < total then ((successful : ℚ) / (total : ℚ)) * 100 else 0
    { location := g.1
      totalApplications := total
      successRate := round2 successRate
      statusBreakdown := tally statuses }

/-! ### GET /analytics/interviews -/

/-- Per-type entry of the `interviewPerformance` object. -/
structure TypeStats where
  total : Nat
  passed : Nat
  failed : Nat
  pending : Nat
  successRate : ℚ
deriving DecidableEq, Repr

/-- The `{ total: 0, passed: 0, failed: 0, pending: 0 }` initializer (the
`successRate` key is only added by the later pass). -/
def initTypeStats : TypeStats :=
  { total := 0, passed := 0, failed := 0, pending := 0, successRate := 0 }

/-- Alphabetical rank of the serialized interview type, as compared by the
`$sort: { '_id.type': 1 }` stage (string order of the enum values). -/
def typeRank : InterviewType → Nat
  | .behavioral => 0
  | .onsite => 1
  | .phone => 2
  | .technical => 3
  | .video => 4

/-- Alphabetical rank of the serialized outcome, for `$sort: { '_id.outcome': 1 }`. -/
def outcomeRank : Outcome → Nat
  | .failed => 0
  | .passed => 1
  | .pending => 2

/-- The `(type, outcome)` sort of the interviews pipeline. -/
def interviewKeyLe (a b : (InterviewType × Outcome) × Nat) : Bool :=
  decide (typeRank a.1.1 < typeRank b.1.1 ∨
    (typeRank a.1.1 = typeRank b.1.1 ∧ outcomeRank a.1.2 ≤ outcomeRank b.1.2))

/-- The unwound interview entries of the user's records having at least one
interview (`$match 'interviewDates.0': { $exists: true }` then `$unwind`). -/
def interviewEntries (jobs : List Job) (userId : Nat) : List Interview :=
  ((userRecords jobs userId).filter fun j => !j.interviewDates.isEmpty).flatMap
    Job.interviewDates

/-- The grouped interview counts: `$group` by `{ type, outcome }` with
`count: { $sum: 1 }`, then `$sort`. -/
def interviewGroups (jobs : List Job) (userId : Nat) :
    List ((InterviewType × Outcome) × Nat) :=
  sortLe interviewKeyLe
    ((groupBy (fun iv => (iv.type, iv.outcome)) (interviewEntries jobs userId)).map
      fun g => (g.1, g.2.length))

/-- Application of one `{ type, outcome, count }` group to a type's stats:
`perf[type].total += count; perf[type][outcome] = count`. -/
def applyInterviewGroup (s : TypeStats) (o : Outcome) (c : Nat) : TypeStats :=
  let s1 := { s with total := s.total + c }
  match o with
  | .passed => { s1 with passed := c }
  | .failed => { s1 with failed := c }
  | .pending => { s1 with pending := c }

/-- Update-or-insert on the insertion-ordered `interviewPerformance` object:
`if (!perf[t]) perf[t] = init; f(perf[t])`. -/
def setPerf (acc : List (InterviewType × TypeStats)) (t : InterviewType)
    (f : TypeStats → TypeStats) : List (InterviewType × TypeStats) :=
  match acc with
  | [] => [(t, f initTypeStats)]
  | (a, s) :: rest =>
    if a = t then (a, f s) :: rest else (a, s) :: setPerf rest t f

/-- Loop body of `interviews.forEach(...)` building `interviewPerformance`. -/
def updatePerf (acc : List (InterviewType × TypeStats))
    (g : (InterviewType × Outcome) × Nat) : List (InterviewType × TypeStats) :=
  setPerf acc g.1.1 fun s => applyInterviewGroup s g.1.2 g.2

/-- GET /analytics/interviews handler: the grouped fold followed by the
success-rate pass `stats.successRate = total > 0 ? Math.round(passed/total*100*100)/100 : 0`. -/
def interviewsHandler (jobs : List Job) (userId : Nat) :
    List (InterviewType × TypeStats) :=
  ((interviewGroups jobs userId).foldl updatePerf []).map fun p =>
    (p.1,
      { p.2 with
        successRate :=
          if 0 < p.2.total then round2 (((p.2.passed : ℚ) / (p.2.total : ℚ)) * 100) else 0 })

/-- Projection of a per-outcome field of `TypeStats`. -/
def outcomeField : Outcome → TypeStats → Nat
  | .passed, s => s.passed
  | .failed, s => s.failed
  | .pending, s => s.pending

/-! ### GET /analytics/timeline -/

/-- Records of the user inside the lookback window
(`applicationDate: { $gte: startDate }`). -/
def windowRecords (jobs : List Job) (userId : Nat) (startDate : Int) : List Job :=
  (userRecords jobs userId).filter fun j => decide (startDate ≤ j.applicationDate)

/-- The `{ year: { $year: '$applicationDate' }, month: { $month: ... } }` group key. -/
def ymKey (j : Job) : Int × Nat := (yearOfMs j.applicationDate, monthOfMs j.applicationDate)

/-- The ascending `{ '_id.year': 1, '_id.month': 1 }` comparison. -/
def ymLe (a b : Int × Nat) : Bool :=
  decide (a.1 < b.1 ∨ (a.1 = b.1 ∧ a.2 ≤ b.2))

/-- The strict year-then-month order (for the strict-ascending property). -/
def ymLt (a b : Int × Nat) : Prop :=
  a.1 < b.1 ∨ (a.1 = b.1 ∧ a.2 < b.2)

/-- The sorted timeline groups (grouped, then sorted ascending by year, month). -/
def timelineSorted (jobs : List Job) (userId : Nat) (startDate : Int) :
    List ((Int × Nat) × List Job) :=
  sortLe (fun a b => ymLe a.1 b.1) (groupBy ymKey (windowRecords jobs userId startDate))

/-- `month.toString().padStart(2, '0')`. -/
def pad2 (n : Nat) : String := if n < 10 then "0" ++ toString n else toString n

/-- The `` `${year}-${month.toString().padStart(2, '0')}` `` period label. -/
def formatPeriod (k : Int × Nat) : String := toString k.1 ++ "-" ++ pad2 k.2

/-- One element of the `timeline` response array. -/
structure TimelineEntry where
  period : String
  total : Nat
  statuses : List (Status × Nat)
deriving DecidableEq, Repr

/-- GET /analytics/timeline handler (the `formattedTimeline` map). -/
def timelineHandler (jobs : List Job) (userId : Nat) (startDate : Int) :
    List TimelineEntry :=
  (timelineSorted jobs userId startDate).map fun g =>
    { period := formatPeriod g.1
      total := g.2.length
      statuses := tally (g.2.map Job.status) }

/-! ### GET /analytics/trends -/

/-- The `period` query parameter domain. -/
inductive TrendPeriod
  | week
  | month
  | quarter
  | year
deriving DecidableEq, Repr

/-- The `dateFormat` group key of the trends pipeline
(`$week` / `$month` / `$quarter` / `$year` of the application date). -/
def bucketKey : TrendPeriod → Int → Int
  | .week, ms => weekOfMs ms
  | .month, ms => (monthOfMs ms : Int)
  | .quarter, ms => quarterOfMs ms
  | .year, ms => yearOfMs ms

/-- One element of the `trends` response array. -/
structure TrendEntry where
  period : Int
  totalApplications : Nat
  applied : Nat
  interviewing : Nat
  offered : Nat
  applicationToInterviewRate : ℚ
  interviewToOfferRate : ℚ
  overallSuccessRate : ℚ
deriving DecidableEq, Repr

/-- The sorted trend groups (`$group` by the bucket key, `$sort { _id: 1 }`). -/
def trendsSorted (jobs : List Job) (userId : Nat) (startDate : Int) (p : TrendPeriod) :
    List (Int × List Job) :=
  sortLe (fun a b => decide (a.1 ≤ b.1))
    (groupBy (fun j => bucketKey p j.applicationDate) (windowRecords jobs userId startDate))

/-- GET /analytics/trends handler (the `trendsWithConversion` map). -/
def trendsHandler (jobs : List Job) (userId : Nat) (startDate : Int) (p : TrendPeriod) :
    List TrendEntry :=
  (trendsSorted jobs userId startDate p).map fun g =>
    let total : Nat := g.2.length
    let statuses := g.2.map Job.status
    let applied : Nat := (statuses.filter fun st => decide (st = .applied)).length
    let interviewing : Nat := (statuses.filter fun st => decide (st = .interviewing)).length
    let offered : Nat := (statuses.filter fun st => decide (st = .offered)).length
    { period := g.1
      totalApplications := total
      applied := applied
      interviewing := interviewing
      offered := offered
      applicationToInterviewRate :=
        if 0 < total then round2 (((interviewing : ℚ) / (total : ℚ)) * 100) else 0
      interviewToOfferRate :=
        if 0 < interviewing then round2 (((offered : ℚ) / (interviewing : ℚ)) * 100) else 0
      overallSuccessRate :=
        if 0 < total then round2 (((offered : ℚ) / (total : ℚ)) * 100) else 0 }

/-! ### Route-level parameter validation -/

/-- A supplied query-parameter value, as classified by `express-validator`:
either an integer string or a malformed (non-integer) string. -/
inductive ParamV
  | intVal (n : Int)
  | malformed (s : String)
deriving DecidableEq, Repr

/-- `query(p).optional().isInt({ min, max })`: absent passes, an integer in
range passes, anything else fails validation. -/
def isIntInRange (lo hi : Int) : Option ParamV → Bool
  | none => true
  | some (.intVal n) => decide (lo ≤ n) && decide (n ≤ hi)
  | some (.malformed _) => false

/-- The JS `parseInt(param) || dflt` defaulting read of a query parameter. -/
def parseIntOr (dflt : Int) : Option ParamV → Int
  | none => dflt
  | some (.intVal n) => if n = 0 then dflt else n
  | some (.malformed _) => dflt

/-- An HTTP response of a route: success payload, or the
`{ success: false, message: 'Validation failed', errors: [...] }` rejection. -/
inductive ApiResponse (α : Type)
  | ok (status : Nat) (payload : α)
  | validationFailed (status : Nat) (message : String)
deriving DecidableEq

/-- GET /analytics/companies route: validation check, then the handler with
`limit = parseInt(req.query.limit) || 10`. -/
def companiesRoute (limitParam : Option ParamV) (jobs : List Job) (userId : Nat)
    (now : Int) : ApiResponse (List CompanyInsight) :=
  if isIntInRange 1 50 limitParam then
    .ok 200 (companiesHandler jobs userId now (parseIntOr 10 limitParam).toNat)
  else
    .validationFailed 400 "Validation failed"

/-- GET /analytics/timeline route: validation check, then the handler with
`months = parseInt(req.query.months) || 6` and the window start computed from
the request time by `startDate.setMonth(getMonth() - months)` (supplied here
as the ambient function `monthsAgo`). -/
def timelineRoute (monthsParam : Option ParamV) (jobs : List Job) (userId : Nat)
    (monthsAgo : Int → Int) : ApiResponse (List TimelineEntry) :=
  if isIntInRange 1 24 monthsParam then
    .ok 200 (timelineHandler jobs userId (monthsAgo (parseIntOr 6 monthsParam)))
  else
    .validationFailed 400 "Validation failed"

/-- Lookup of a type's entry in the insertion-ordered performance object
(analysis helper for the `interviewPerformance` fold). -/
def lookupPerf (acc : List (InterviewType × TypeStats)) (t : InterviewType) :
    Option TypeStats :=
  (acc.find? fun q => decide (q.1 = t)).map Prod.snd

/-- The restriction of the `interviewPerformance` fold to the groups of one
interview type (analysis helper). -/
def perfFoldT (t : InterviewType) (gs : List ((InterviewType × Outcome) × Nat))
    (o : Option TypeStats) : Option TypeStats :=
  gs.foldl
    (fun os g =>
      if g.1.1 = t then some (applyInterviewGroup (os.getD initTypeStats) g.1.2 g.2) else os)
    o

/-- Plain fold of one type's groups over its stats (analysis helper). -/
def plainFoldT (ts : List ((InterviewType × Outcome) × Nat)) (s : TypeStats) : TypeStats :=
  ts.foldl (fun s g => applyInterviewGroup s g.1.2 g.2) s

/-! ### POST /jobs/:id/interviews -/

/-- Core of the add-interview route, after the ownership check: push the new
entry, auto-transition `applied → interviewing`, then `job.save()` whose
pre-save hook fills `followUpDate` for an interviewing job without one. -/
def addInterview (j : Job) (iv : Interview) (now : Int) : Job :=
  let j1 := { j with interviewDates := j.interviewDates ++ [iv] }
  let j2 := if j1.status = .applied then { j1 with status := .interviewing } else j1
  if j2.status = .interviewing ∧ j2.followUpDate = none then
    { j2 with followUpDate := some (now + 7 * 24 * 60 * 60 * 1000) }
  else j2

/-! ### Concrete sample stores (used to instantiate the theorems) -/

/-- Sample record of user 1 at company Acme (offered, one phone interview). -/
def jobAcme1 : Job :=
  { user := 1, title := "Dev", company := "Acme", location := some "Kigali",
    status := .offered, applicationDate := 1700000000000,
    interviewDates := [{ date := 1699000000000, type := .phone, outcome := .passed }] }

/-- Sample record of user 1 at company Acme (rejected, two phone interviews). -/
def jobAcme2 : Job :=
  { user := 1, title := "Dev2", company := "Acme", location := some "Kigali",
    status := .rejected, applicationDate := 1700000500000,
    interviewDates := [{ date := 1, type := .phone, outcome := .passed },
                       { date := 2, type := .phone, outcome := .pending }] }

/-- Sample record owned by user 2. -/
def jobOther : Job :=
  { user := 2, title := "X", company := "Globex", location := some "Mars",
    status := .applied, applicationDate := 1700000000000 }

/-- A different sample record owned by user 2. -/
def jobOther2 : Job :=
  { user := 2, company := "Initech", status := .withdrawn, applicationDate := 3,
    interviewDates := [{ date := 9, type := .onsite, outcome := .failed }] }

/-- Record of user 1 whose application date lies 432000 ms (7.2 minutes) in
the future of the sample request time 0, so that its days-since-application
is exactly -1/200 day. -/
def jobFuture : Job :=
  { user := 1, company := "Acme", status := .applied, applicationDate := 432000 }

/-- Expected companies row for the store `[jobFuture]` at request time 0. -/
def acmeFutureInsight : CompanyInsight :=
  { company := "Acme", totalApplications := 1, successRate := 0,
    avgDaysSinceApplication := 0, statusBreakdown := [(.applied, 1)] }

/-- Expected companies row for the store `[jobAcme1]` one day after its
application date. -/
def acme1Insight : CompanyInsight :=
  { company := "Acme", totalApplications := 1, successRate := 100,
    avgDaysSinceApplication := 1, statusBreakdown := [(.offered, 1)] }

/-- Expected phone-interview stats for the store `[jobAcme2]`. -/
def phoneStats : TypeStats :=
  { total := 2, passed := 1, failed := 0, pending := 1, successRate := 50 }

/-- Expected trends row for the store `[jobFuture]`, window start 0, monthly
buckets. -/
def trendFutureEntry : TrendEntry :=
  { period := 1, totalApplications := 1, applied := 1, interviewing := 0, offered := 0,
    applicationToInterviewRate := 0, interviewToOfferRate := 0, overallSuccessRate := 0 }

/-- Expected timeline row for the store `[jobFuture]`, window start 0. -/
def timelineFutureEntry : TimelineEntry :=
  { period := "1970-01", total := 1, statuses := [(.applied, 1)] }

/-! ### Lemmas about the aggregation primitives -/

section AggregationLemmas

variable {κ α : Type} [DecidableEq κ]

theorem mem_foldl_distinct (ks : List κ) :
    ∀ (acc : List κ) (k : κ),
      (k ∈ ks.foldl (fun acc k => if k ∈ acc then acc else acc ++ [k]) acc) ↔
        (k ∈ acc ∨ k ∈ ks) := by
  induction ks with
  | nil => intro acc k; simp
  | cons a as ih =>
    intro acc k
    rw [List.foldl_cons, ih]
    by_cases h : a ∈ acc
    · simp only [if_pos h, List.mem_cons]
      constructor
      · rintro (hk | hk)
        · exact Or.inl hk
        · exact Or.inr (Or.inr hk)
      · rintro (hk | rfl | hk)
        · exact Or.inl hk
        · exact Or.inl h
        · exact Or.inr hk
    · simp only [if_neg h, List.mem_append, List.mem_singleton, List.mem_cons]
      tauto

theorem mem_distinctKeys (ks : List κ) (k : κ) : k ∈ distinctKeys ks ↔ k ∈ ks := by
  unfold distinctKeys
  rw [mem_foldl_distinct]
  simp

theorem nodup_foldl_distinct (ks : List κ) :
    ∀ acc : List κ, acc.Nodup →
      (ks.foldl (fun acc k => if k ∈ acc then acc else acc ++ [k]) acc).Nodup := by
  induction ks with
  | nil => intro acc h; simpa using h
  | cons a as ih =>
    intro acc hacc
    rw [List.foldl_cons]
    apply ih
    by_cases h : a ∈ acc
    · simpa [h] using hacc
    · simp only [if_neg h]
      rw [List.nodup_append]
      refine ⟨hacc, List.nodup_singleton a, ?_⟩
      intro x hx hxa
      have hxa2 : x = a := by simpa using hxa
      exact h (hxa2 ▸ hx)

theorem nodup_distinctKeys (ks : List κ) : (distinctKeys ks).Nodup :=
  nodup_foldl_distinct ks [] (by simp)

theorem mem_groupBy {key : α → κ} {docs : List α} {k : κ} {ds : List α}
    (h : (k, ds) ∈ groupBy key docs) :
    ds = docs.filter (fun d => decide (key d = k)) ∧ k ∈ docs.map key := by
  unfold groupBy at h
  obtain ⟨k1, hk1, heq⟩ := List.mem_map.mp h
  injection heq with h1 h2
  subst h1
  subst h2
  exact ⟨rfl, (mem_distinctKeys _ _).mp hk1⟩

theorem keys_groupBy (key : α → κ) (docs : List α) :
    (groupBy key docs).map Prod.fst = distinctKeys (docs.map key) := by
  unfold groupBy
  rw [List.map_map]
  have h : (Prod.fst ∘ fun k => (k, docs.filter fun d => decide (key d = k))) = id := rfl
  rw [h, List.map_id]

theorem nodup_keys_groupBy (key : α → κ) (docs : List α) :
    ((groupBy key docs).map Prod.fst).Nodup := by
  rw [keys_groupBy]
  exact nodup_distinctKeys _

theorem groupBy_mem_of_key {key : α → κ} {docs : List α} {k : κ}
    (h : k ∈ docs.map key) :
    (k, docs.filter fun d => decide (key d = k)) ∈ groupBy key docs := by
  unfold groupBy
  exact List.mem_map.mpr ⟨k, (mem_distinctKeys _ _).mpr h, rfl⟩

theorem length_filter_add_length_filter_not {β : Type} (p : β → Bool) :
    ∀ l : List β, (l.filter p).length + (l.filter fun a => !p a).length = l.length := by
  intro l
  induction l with
  | nil => rfl
  | cons a t ih =>
    by_cases h : p a <;> simp [List.filter_cons, h] <;> omega

theorem sum_filter_length_eq (key : α → κ) :
    ∀ (ks : List κ) (l : List α), ks.Nodup → (∀ a ∈ l, key a ∈ ks) →
      (ks.map fun k => (l.filter fun a => decide (key a = k)).length).sum = l.length := by
  intro ks
  induction ks with
  | nil =>
    intro l _ hcov
    cases l with
    | nil => simp
    | cons a t => exact absurd (hcov a (by simp)) (by simp)
  | cons k ks ih =>
    intro l hnd hcov
    rw [List.map_cons, List.sum_cons]
    have hkn : k ∉ ks := (List.nodup_cons.mp hnd).1
    have hnd2 : ks.Nodup := (List.nodup_cons.mp hnd).2
    have htail : (ks.map fun k2 => (l.filter fun a => decide (key a = k2)).length)
        = ks.map fun k2 =>
            ((l.filter fun a => !decide (key a = k)).filter fun a => decide (key a = k2)).length := by
      apply List.map_congr_left
      intro k2 hk2
      have hne : k2 ≠ k := by rintro rfl; exact hkn hk2
      congr 1
      rw [List.filter_filter]
      apply List.filter_congr
      intro a _
      by_cases h : key a = k2
      · simp [h, hne]
      · simp [h]
    rw [htail]
    have hcov2 : ∀ a ∈ l.filter fun a => !decide (key a = k), key a ∈ ks := by
      intro a ha
      rw [List.mem_filter] at ha
      have hmem := hcov a ha.1
      have hne : key a ≠ k := by simpa using ha.2
      rcases List.mem_cons.mp hmem with h | h
      · exact absurd h hne
      · exact h
    rw [ih (l.filter fun a => !decide (key a = k)) hnd2 hcov2]
    exact length_filter_add_length_filter_not (fun a => decide (key a = k)) l

theorem perm_insertLe {β : Type} (le : β → β → Bool) (a : β) :
    ∀ l : List β, (insertLe le a l).Perm (a :: l) := by
  intro l
  induction l with
  | nil => exact List.Perm.refl _
  | cons b bs ih =>
    unfold insertLe
    by_cases h : le a b
    · rw [if_pos h]
    · rw [if_neg h]
      exact (ih.cons b).trans (List.Perm.swap a b bs)

theorem perm_sortLe {β : Type} (le : β → β → Bool) :
    ∀ l : List β, (sortLe le l).Perm l := by
  intro l
  induction l with
  | nil => exact List.Perm.refl _
  | cons a as ih =>
    unfold sortLe
    exact (perm_insertLe le a (sortLe le as)).trans (ih.cons a)

theorem pairwise_insertLe {β : Type} {le : β → β → Bool}
    (htot : ∀ a b, le a b = true ∨ le b a = true)
    (htrans : ∀ a b c, le a b = true → le b c = true → le a c = true) (a : β) :
    ∀ l : List β, l.Pairwise (fun x y => le x y = true) →
      (insertLe le a l).Pairwise (fun x y => le x y = true) := by
  intro l
  induction l with
  | nil => intro _; simp [insertLe]
  | cons b bs ih =>
    intro hp
    rw [List.pairwise_cons] at hp
    obtain ⟨hb, hbs⟩ := hp
    unfold insertLe
    by_cases h : le a b
    · rw [if_pos h, List.pairwise_cons]
      refine ⟨?_, List.pairwise_cons.mpr ⟨hb, hbs⟩⟩
      intro x hx
      rcases List.mem_cons.mp hx with rfl | hx
      · exact h
      · exact htrans a b x h (hb x hx)
    · rw [if_neg h, List.pairwise_cons]
      have hba : le b a = true := by
        rcases htot a b with h2 | h2
        · exact absurd h2 h
        · exact h2
      refine ⟨?_, ih hbs⟩
      intro x hx
      have hx2 : x ∈ a :: bs := (perm_insertLe le a bs).mem_iff.mp hx
      rcases List.mem_cons.mp hx2 with rfl | hx3
      · exact hba
      · exact hb x hx3

theorem pairwise_sortLe {β : Type} {le : β → β → Bool}
    (htot : ∀ a b, le a b = true ∨ le b a = true)
    (htrans : ∀ a b c, le a b = true → le b c = true → le a c = true) :
    ∀ l : List β, (sortLe le l).Pairwise (fun x y => le x y = true) := by
  intro l
  induction l with
  | nil => simp [sortLe]
  | cons a as ih =>
    unfold sortLe
    exact pairwise_insertLe htot htrans a (sortLe le as) ih

theorem getCount_nil (k : κ) : getCount ([] : List (κ × Nat)) k = 0 := rfl

theorem getCount_cons (a : κ) (m : Nat) (rest : List (κ × Nat)) (k : κ) :
    getCount ((a, m) :: rest) k = if a = k then m else getCount rest k := by
  by_cases h : a = k <;> simp [getCount, List.find?_cons, h]

theorem getCount_bump (k k1 : κ) :
    ∀ acc : List (κ × Nat),
      getCount (bump k acc) k1 = getCount acc k1 + (if k1 = k then 1 else 0) := by
  intro acc
  induction acc with
  | nil =>
    rw [show bump k ([] : List (κ × Nat)) = [(k, 1)] from rfl, getCount_cons, getCount_nil]
    by_cases h : k1 = k
    · subst h; simp
    · rw [if_neg (fun h2 => h h2.symm), if_neg h]
  | cons p rest ih =>
    obtain ⟨a, n⟩ := p
    unfold bump
    by_cases h : a = k
    · subst h
      rw [if_pos rfl, getCount_cons, getCount_cons]
      by_cases h2 : a = k1
      · subst h2; simp
      · rw [if_neg h2, if_neg h2, if_neg (fun h3 : k1 = a => h2 h3.symm)]
        rfl
    · rw [if_neg h, getCount_cons, getCount_cons]
      by_cases h2 : a = k1
      · subst h2
        rw [if_pos rfl, if_pos rfl, if_neg h]
        rfl
      · rw [if_neg h2, if_neg h2, ih]

theorem getCount_tally_aux (l : List κ) :
    ∀ (acc : List (κ × Nat)) (k : κ),
      getCount (l.foldl (fun acc k => bump k acc) acc) k
        = getCount acc k + (l.filter fun x => decide (x = k)).length := by
  induction l with
  | nil => intro acc k; simp
  | cons a as ih =>
    intro acc k
    rw [List.foldl_cons, ih, getCount_bump]
    by_cases h : a = k
    · subst h
      simp [List.filter_cons]
      omega
    · have h2 : ¬(k = a) := fun h3 => h h3.symm
      simp [List.filter_cons, h, h2]

theorem getCount_tally (l : List κ) (k : κ) :
    getCount (tally l) k = (l.filter fun x => decide (x = k)).length := by
  unfold tally
  rw [getCount_tally_aux]
  simp [getCount_nil]

end AggregationLemmas

theorem length_filter_map {β κ : Type} (f : β → κ) (p : κ → Bool) (l : List β) :
    ((l.map f).filter p).length = (l.filter fun b => p (f b)).length := by
  rw [List.filter_map, List.length_map]
  rfl

/-! ### Lemmas about the stats fold -/

theorem statField_applyStat (o : StatsObj) (g : Status × Nat) (st : Status) :
    statField st (applyStat o g) = if g.1 = st then g.2 else statField st o := by
  obtain ⟨k, c⟩ := g
  cases k <;> cases st <;> simp [applyStat, statField]

theorem total_applyStat (o : StatsObj) (g : Status × Nat) :
    (applyStat o g).total = o.total + g.2 := by
  obtain ⟨k, c⟩ := g
  cases k <;> rfl

theorem total_foldl_applyStat (gs : List (Status × Nat)) :
    ∀ o : StatsObj, (gs.foldl applyStat o).total = o.total + (gs.map Prod.snd).sum := by
  induction gs with
  | nil => intro o; simp
  | cons g gs ih =>
    intro o
    rw [List.foldl_cons, ih, total_applyStat, List.map_cons, List.sum_cons]
    omega

theorem statField_foldl_notmem (st : Status) :
    ∀ gs : List (Status × Nat), st ∉ gs.map Prod.fst →
      ∀ o : StatsObj, statField st (gs.foldl applyStat o) = statField st o := by
  intro gs
  induction gs with
  | nil => intro _ o; rfl
  | cons g gs ih =>
    intro h o
    rw [List.map_cons] at h
    have h1 : g.1 ≠ st := fun h2 => h (h2 ▸ List.mem_cons_self _ _)
    have h2 : st ∉ gs.map Prod.fst := fun h3 => h (List.mem_cons_of_mem _ h3)
    rw [List.foldl_cons, ih h2, statField_applyStat, if_neg h1]

theorem statField_foldl_mem (st : Status) (n : Nat) :
    ∀ gs : List (Status × Nat), (gs.map Prod.fst).Nodup → (st, n) ∈ gs →
      ∀ o : StatsObj, statField st (gs.foldl applyStat o) = n := by
  intro gs
  induction gs with
  | nil => intro _ h; exact absurd h (List.not_mem_nil _)
  | cons g gs ih =>
    intro hnd hmem o
    rw [List.map_cons, List.nodup_cons] at hnd
    rcases List.mem_cons.mp hmem with heq | hmem2
    · rw [List.foldl_cons]
      have hnotin : st ∉ gs.map Prod.fst := by
        have : g.1 = st := by rw [← heq]
        exact this ▸ hnd.1
      rw [statField_foldl_notmem st gs hnotin, statField_applyStat,
        if_pos (by rw [← heq]), ← heq]
    · rw [List.foldl_cons]
      exact ih hnd.2 hmem2 _

theorem statField_statsHandler (jobs : List Job) (userId : Nat) (st : Status) :
    statField st (statsHandler jobs userId)
      = ((userRecords jobs userId).filter fun j => decide (j.status = st)).length := by
  unfold statsHandler
  have hkeys : ((getUserStats jobs userId).map Prod.fst).Nodup := by
    unfold getUserStats
    rw [List.map_map]
    have h : (Prod.fst ∘ fun g : Status × List Job => (g.1, g.2.length)) = Prod.fst := rfl
    rw [h]
    exact nodup_keys_groupBy _ _
  by_cases h : st ∈ (userRecords jobs userId).map Job.status
  · have hgrp := groupBy_mem_of_key h
    have hmem : (st, ((userRecords jobs userId).filter fun j => decide (j.status = st)).length)
        ∈ getUserStats jobs userId := by
      unfold getUserStats
      exact List.mem_map.mpr ⟨_, hgrp, rfl⟩
    exact statField_foldl_mem st _ (getUserStats jobs userId) hkeys hmem initStats
  · have hnot : st ∉ (getUserStats jobs userId).map Prod.fst := by
      unfold getUserStats
      rw [List.map_map]
      have heq : (Prod.fst ∘ fun g : Status × List Job => (g.1, g.2.length)) = Prod.fst := rfl
      rw [heq, keys_groupBy, mem_distinctKeys]
      exact h
    rw [statField_foldl_notmem st _ hnot]
    have hfil : ((userRecords jobs userId).filter fun j => decide (j.status = st)) = [] := by
      rw [List.filter_eq_nil_iff]
      intro j hj
      simp only [decide_eq_true_eq]
      intro hst
      exact h (List.mem_map.mpr ⟨j, hj, hst⟩)
    rw [hfil]
    cases st <;> rfl

theorem total_statsHandler (jobs : List Job) (userId : Nat) :
    (statsHandler jobs userId).total = (userRecords jobs userId).length := by
  unfold statsHandler
  rw [total_foldl_applyStat]
  have hmap : (getUserStats jobs userId).map Prod.snd
      = (distinctKeys ((userRecords jobs userId).map Job.status)).map
          fun k => ((userRecords jobs userId).filter fun j => decide (j.status = k)).length := by
    unfold getUserStats groupBy
    rw [List.map_map, List.map_map]
    rfl
  rw [hmap, sum_filter_length_eq Job.status _ _ (nodup_distinctKeys _)
    (fun j hj => (mem_distinctKeys _ _).mpr (List.mem_map_of_mem Job.status hj))]
  simp [initStats]

/-! ### Lemmas about group membership and rounding -/

theorem mem_groupBy_facts {κ α : Type} [DecidableEq κ] {key : α → κ} {docs : List α}
    {g : κ × List α} (h : g ∈ groupBy key docs) :
    g.2 = docs.filter (fun d => decide (key d = g.1)) ∧ 0 < g.2.length := by
  obtain ⟨k, ds⟩ := g
  obtain ⟨h1, h2⟩ := mem_groupBy h
  refine ⟨h1, ?_⟩
  obtain ⟨d, hd, hkd⟩ := List.mem_map.mp h2
  have hmem : d ∈ ds := by
    rw [h1]
    exact List.mem_filter.mpr ⟨hd, by simp [hkd]⟩
  exact List.length_pos_of_mem hmem

theorem mem_companyGroups {jobs : List Job} {userId limit : Nat} {g : String × List Job}
    (h : g ∈ companyGroups jobs userId limit) :
    g.2 = (userRecords jobs userId).filter (fun j => decide (j.company = g.1))
      ∧ 0 < g.2.length := by
  unfold companyGroups at h
  have h1 := List.mem_of_mem_take h
  have h2 := (perm_sortLe countDesc _).mem_iff.mp h1
  exact mem_groupBy_facts h2

theorem mem_locationGroups {jobs : List Job} {userId : Nat} {g : String × List Job}
    (h : g ∈ locationGroups jobs userId) :
    g.2 = ((userRecords jobs userId).filter hasLocation).filter
        (fun j => decide (j.location.getD "" = g.1))
      ∧ 0 < g.2.length ∧ g.1 ≠ "" := by
  unfold locationGroups at h
  have h2 := (perm_sortLe countDesc _).mem_iff.mp h
  obtain ⟨hds, hpos⟩ := mem_groupBy_facts h2
  refine ⟨hds, hpos, ?_⟩
  obtain ⟨k, ds⟩ := g
  obtain ⟨_, hkey⟩ := mem_groupBy h2
  obtain ⟨j, hj, hjk⟩ := List.mem_map.mp hkey
  rw [List.mem_filter] at hj
  have hl := hj.2
  unfold hasLocation at hl
  cases hloc : j.location with
  | none => rw [hloc] at hl; exact absurd hl (by simp)
  | some s =>
    rw [hloc] at hl
    have hs : s ≠ "" := by simpa using hl
    have : k = s := by rw [← hjk, hloc]; rfl
    simpa [this] using hs

theorem countDesc_total {κ : Type} :
    ∀ a b : κ × List Job, countDesc a b = true ∨ countDesc b a = true := by
  intro a b
  unfold countDesc
  rcases Nat.le_total b.2.length a.2.length with h | h
  · exact Or.inl (decide_eq_true h)
  · exact Or.inr (decide_eq_true h)

theorem countDesc_trans {κ : Type} :
    ∀ a b c : κ × List Job, countDesc a b = true → countDesc b c = true →
      countDesc a c = true := by
  intro a b c hab hbc
  unfold countDesc at hab hbc ⊢
  exact decide_eq_true (Nat.le_trans (of_decide_eq_true hbc) (of_decide_eq_true hab))

theorem round2_zero : round2 0 = 0 := by
  norm_num [round2, mathRound]

theorem round2_nonneg {x : ℚ} (h : 0 ≤ x) : 0 ≤ round2 x := by
  unfold round2 mathRound
  have h1 : (0 : ℤ) ≤ ⌊x * 100 + 1/2⌋ := Int.floor_nonneg.mpr (by linarith)
  have h2 : (0 : ℚ) ≤ ((⌊x * 100 + 1/2⌋ : ℤ) : ℚ) := by exact_mod_cast h1
  linarith

theorem round2_le_100 {x : ℚ} (h : x ≤ 100) : round2 x ≤ 100 := by
  unfold round2 mathRound
  have h0 : x * 100 + 1/2 ≤ (10000 : ℚ) + 1/2 := by linarith
  have h1 : ⌊x * 100 + 1/2⌋ ≤ (10000 : ℤ) := by
    calc ⌊x * 100 + 1/2⌋ ≤ ⌊(10000 : ℚ) + 1/2⌋ := Int.floor_le_floor h0
      _ = 10000 := by norm_num
  have h2 : ((⌊x * 100 + 1/2⌋ : ℤ) : ℚ) ≤ 10000 := by exact_mod_cast h1
  linarith

theorem successRate_arg_bounds {s t : Nat} (hst : s ≤ t) (ht : 0 < t) :
    0 ≤ ((s : ℚ) / (t : ℚ)) * 100 ∧ ((s : ℚ) / (t : ℚ)) * 100 ≤ 100 := by
  have htq : (0 : ℚ) < (t : ℚ) := by exact_mod_cast ht
  have hsq : (0 : ℚ) ≤ (s : ℚ) := by positivity
  constructor
  · positivity
  · have hdle : (s : ℚ) / (t : ℚ) ≤ 1 := by
      rw [div_le_one htq]
      exact_mod_cast hst
    linarith

theorem roundHalfAway2_zero : roundHalfAway2 0 = 0 := by
  norm_num [roundHalfAway2]

theorem round2_eq_roundHalfAway2 {x : ℚ} (h : 0 ≤ x) : round2 x = roundHalfAway2 x := by
  unfold round2 mathRound roundHalfAway2
  rw [if_pos h]

theorem round2_ite_eq_roundHalfAway2 {c : Prop} [Decidable c] {x : ℚ} (h : 0 ≤ x) :
    round2 (if c then x else 0) = roundHalfAway2 (if c then x else 0) := by
  by_cases hc : c
  · rw [if_pos hc]
    exact round2_eq_roundHalfAway2 h
  · rw [if_neg hc, round2_zero, roundHalfAway2_zero]

/-! ### Evaluations of the handlers on the concrete sample stores -/

theorem companiesHandler_jobFuture :
    companiesHandler [jobFuture] 1 0 10 = [acmeFutureInsight] := by
  have hs : isSuccessStatus .applied = false := by decide
  norm_num [companiesHandler, companyGroups, userRecords, groupBy, distinctKeys,
    sortLe, insertLe, countDesc, avgDays, round2, mathRound, tally, bump,
    hs, List.filter_cons, List.filter_nil, jobFuture, msPerDay, acmeFutureInsight]

theorem companiesHandler_jobAcme1 :
    companiesHandler [jobAcme1] 1 1700086400000 10 = [acme1Insight] := by
  have hs : isSuccessStatus .offered = true := by decide
  norm_num [companiesHandler, companyGroups, userRecords, groupBy, distinctKeys,
    sortLe, insertLe, countDesc, avgDays, round2, mathRound, tally, bump,
    hs, List.filter_cons, List.filter_nil, jobAcme1, msPerDay, acme1Insight]

theorem trendsHandler_jobFuture :
    trendsHandler [jobFuture] 1 0 .month = [trendFutureEntry] := by
  have hm : monthOfMs 432000 = 1 := by decide
  have h1 : ¬(Status.applied = Status.interviewing) := by decide
  have h2 : ¬(Status.applied = Status.offered) := by decide
  norm_num [trendsHandler, trendsSorted, windowRecords, userRecords, groupBy,
    distinctKeys, sortLe, insertLe, bucketKey, hm, h1, h2, round2, mathRound,
    List.filter_cons, List.filter_nil, jobFuture, trendFutureEntry]

theorem timelineHandler_jobFuture :
    timelineHandler [jobFuture] 1 0 = [timelineFutureEntry] := by
  have hy : yearOfMs 432000 = 1970 := by decide
  have hm : monthOfMs 432000 = 1 := by decide
  have hf : formatPeriod (1970, 1) = "1970-01" := by decide
  norm_num [timelineHandler, timelineSorted, windowRecords, userRecords, groupBy,
    distinctKeys, sortLe, insertLe, ymKey, hy, hm, hf, tally, bump,
    List.filter_cons, List.filter_nil, jobFuture, timelineFutureEntry]

theorem interviewsHandler_jobAcme2 :
    interviewsHandler [jobAcme2] 1 = [(.phone, phoneStats)] := by
  have h1 : ¬(Outcome.passed = Outcome.pending) := by decide
  have h2 : ¬(Outcome.pending = Outcome.passed) := by decide
  norm_num [interviewsHandler, interviewGroups, interviewEntries, userRecords,
    groupBy, distinctKeys, sortLe, insertLe, interviewKeyLe, typeRank, outcomeRank,
    updatePerf, setPerf, applyInterviewGroup, initTypeStats, round2, mathRound, h1, h2,
    List.filter_cons, List.filter_nil, jobAcme2, phoneStats]

/-! ### Lemmas about the interview-performance fold -/

theorem applyInterviewGroup_total (s : TypeStats) (o : Outcome) (c : Nat) :
    (applyInterviewGroup s o c).total = s.total + c := by
  cases o <;> rfl

theorem applyInterviewGroup_field (s : TypeStats) (o : Outcome) (c : Nat) (o1 : Outcome) :
    outcomeField o1 (applyInterviewGroup s o c)
      = if o = o1 then c else outcomeField o1 s := by
  cases o <;> cases o1 <;> simp [applyInterviewGroup, outcomeField]

theorem lookupPerf_nil (t : InterviewType) : lookupPerf [] t = none := rfl

theorem lookupPerf_setPerf_eq (t : InterviewType) (f : TypeStats → TypeStats) :
    ∀ acc : List (InterviewType × TypeStats),
      lookupPerf (setPerf acc t f) t = some (f ((lookupPerf acc t).getD initTypeStats)) := by
  intro acc
  induction acc with
  | nil => simp [setPerf, lookupPerf, List.find?]
  | cons q rest ih =>
    obtain ⟨a, s⟩ := q
    unfold setPerf
    by_cases h : a = t
    · subst h
      simp [lookupPerf, List.find?_cons]
    · simp only [if_neg h]
      simp only [lookupPerf, List.find?_cons, decide_eq_true_eq, h, if_false] at ih ⊢
      simpa [h] using ih

theorem lookupPerf_setPerf_ne {t t1 : InterviewType} (f : TypeStats → TypeStats)
    (h : t1 ≠ t) :
    ∀ acc : List (InterviewType × TypeStats),
      lookupPerf (setPerf acc t1 f) t = lookupPerf acc t := by
  intro acc
  induction acc with
  | nil => simp [setPerf, lookupPerf, List.find?, h]
  | cons q rest ih =>
    obtain ⟨a, s⟩ := q
    unfold setPerf
    by_cases h2 : a = t1
    · subst h2
      simp [lookupPerf, List.find?_cons, h]
    · simp only [if_neg h2]
      simp only [lookupPerf, List.find?_cons] at ih ⊢
      by_cases h3 : a = t
      · simp [h3]
      · simpa [h3] using ih

theorem lookupPerf_foldl (gs : List ((InterviewType × Outcome) × Nat)) :
    ∀ (acc : List (InterviewType × TypeStats)) (t : InterviewType),
      lookupPerf (gs.foldl updatePerf acc) t = perfFoldT t gs (lookupPerf acc t) := by
  induction gs with
  | nil => intro acc t; rfl
  | cons g gs ih =>
    intro acc t
    rw [List.foldl_cons, ih]
    have hstep : lookupPerf (updatePerf acc g) t
        = if g.1.1 = t
          then some (applyInterviewGroup ((lookupPerf acc t).getD initTypeStats) g.1.2 g.2)
          else lookupPerf acc t := by
      unfold updatePerf
      by_cases h : g.1.1 = t
      · rw [if_pos h, h, lookupPerf_setPerf_eq]
      · rw [if_neg h, lookupPerf_setPerf_ne _ h]
    rw [hstep]
    unfold perfFoldT
    rw [List.foldl_cons]

theorem perfFoldT_some (t : InterviewType) (gs : List ((InterviewType × Outcome) × Nat)) :
    ∀ s0 : TypeStats,
      perfFoldT t gs (some s0)
        = some (plainFoldT (gs.filter fun g => decide (g.1.1 = t)) s0) := by
  induction gs with
  | nil => intro s0; rfl
  | cons g gs ih =>
    intro s0
    by_cases h : g.1.1 = t
    · have hd : decide (g.1.1 = t) = true := decide_eq_true h
      have hL : perfFoldT t (g :: gs) (some s0)
          = perfFoldT t gs (some (applyInterviewGroup s0 g.1.2 g.2)) := by
        unfold perfFoldT
        rw [List.foldl_cons, if_pos h, Option.getD_some]
      have hR : (g :: gs).filter (fun g => decide (g.1.1 = t))
          = g :: gs.filter (fun g => decide (g.1.1 = t)) := by
        simp [List.filter_cons, hd]
      have hP : plainFoldT (g :: gs.filter fun g => decide (g.1.1 = t)) s0
          = plainFoldT (gs.filter fun g => decide (g.1.1 = t))
              (applyInterviewGroup s0 g.1.2 g.2) := by
        unfold plainFoldT
        rw [List.foldl_cons]
      rw [hL, ih, hR, hP]
    · have hd : decide (g.1.1 = t) = false := decide_eq_false h
      have hL : perfFoldT t (g :: gs) (some s0) = perfFoldT t gs (some s0) := by
        unfold perfFoldT
        rw [List.foldl_cons, if_neg h]
      have hR : (g :: gs).filter (fun g => decide (g.1.1 = t))
          = gs.filter (fun g => decide (g.1.1 = t)) := by
        simp [List.filter_cons, hd]
      rw [hL, ih, hR]

theorem perfFoldT_none (t : InterviewType) (gs : List ((InterviewType × Outcome) × Nat)) :
    perfFoldT t gs none
      = if (gs.filter fun g => decide (g.1.1 = t)) = []
        then none
        else some (plainFoldT (gs.filter fun g => decide (g.1.1 = t)) initTypeStats) := by
  induction gs with
  | nil => rfl
  | cons g gs ih =>
    by_cases h : g.1.1 = t
    · have hd : decide (g.1.1 = t) = true := decide_eq_true h
      have hL : perfFoldT t (g :: gs) none
          = perfFoldT t gs (some (applyInterviewGroup initTypeStats g.1.2 g.2)) := by
        unfold perfFoldT
        rw [List.foldl_cons, if_pos h, Option.getD_none]
      have hR : (g :: gs).filter (fun g => decide (g.1.1 = t))
          = g :: gs.filter (fun g => decide (g.1.1 = t)) := by
        simp [List.filter_cons, hd]
      have hP : plainFoldT (g :: gs.filter fun g => decide (g.1.1 = t)) initTypeStats
          = plainFoldT (gs.filter fun g => decide (g.1.1 = t))
              (applyInterviewGroup initTypeStats g.1.2 g.2) := by
        unfold plainFoldT
        rw [List.foldl_cons]
      rw [hL, perfFoldT_some, hR, if_neg (List.cons_ne_nil _ _), hP]
    · have hd : decide (g.1.1 = t) = false := decide_eq_false h
      have hL : perfFoldT t (g :: gs) none = perfFoldT t gs none := by
        unfold perfFoldT
        rw [List.foldl_cons, if_neg h]
      have hR : (g :: gs).filter (fun g => decide (g.1.1 = t))
          = gs.filter (fun g => decide (g.1.1 = t)) := by
        simp [List.filter_cons, hd]
      rw [hL, ih, hR]

theorem keys_setPerf (t : InterviewType) (f : TypeStats → TypeStats) :
    ∀ acc : List (InterviewType × TypeStats),
      (setPerf acc t f).map Prod.fst
        = if t ∈ acc.map Prod.fst then acc.map Prod.fst else acc.map Prod.fst ++ [t] := by
  intro acc
  induction acc with
  | nil => simp [setPerf]
  | cons q rest ih =>
    obtain ⟨a, s⟩ := q
    unfold setPerf
    by_cases h : a = t
    · subst h
      simp
    · have h2 : ¬(t = a) := fun h3 => h h3.symm
      simp only [if_neg h, List.map_cons, List.mem_cons, h2, false_or]
      rw [ih]
      by_cases h3 : t ∈ rest.map Prod.fst
      · simp [h3]
      · simp [h3]

theorem nodup_keys_setPerf (t : InterviewType) (f : TypeStats → TypeStats)
    (acc : List (InterviewType × TypeStats)) (h : (acc.map Prod.fst).Nodup) :
    ((setPerf acc t f).map Prod.fst).Nodup := by
  rw [keys_setPerf]
  by_cases h2 : t ∈ acc.map Prod.fst
  · simpa [h2] using h
  · simp only [h2, if_false]
    rw [List.nodup_append]
    refine ⟨h, List.nodup_singleton t, ?_⟩
    intro x hx hxt
    have hxt2 : x = t := by simpa using hxt
    exact h2 (hxt2 ▸ hx)

theorem nodup_keys_foldl_updatePerf (gs : List ((InterviewType × Outcome) × Nat)) :
    ∀ acc : List (InterviewType × TypeStats), (acc.map Prod.fst).Nodup →
      (((gs.foldl updatePerf acc)).map Prod.fst).Nodup := by
  induction gs with
  | nil => intro acc h; simpa using h
  | cons g gs ih =>
    intro acc h
    rw [List.foldl_cons]
    exact ih _ (nodup_keys_setPerf _ _ _ h)

theorem lookupPerf_of_mem :
    ∀ {acc : List (InterviewType × TypeStats)}, (acc.map Prod.fst).Nodup →
      ∀ {t : InterviewType} {s : TypeStats}, (t, s) ∈ acc → lookupPerf acc t = some s := by
  intro acc
  induction acc with
  | nil => intro _ t s h; exact absurd h (List.not_mem_nil _)
  | cons q rest ih =>
    intro hnd t s h
    obtain ⟨a, s1⟩ := q
    rw [List.map_cons, List.nodup_cons] at hnd
    rcases List.mem_cons.mp h with heq | hmem
    · injection heq with h1 h2
      subst h1
      subst h2
      simp [lookupPerf, List.find?_cons]
    · have hne : a ≠ t := by
        intro he
        apply hnd.1
        rw [he]
        exact List.mem_map.mpr ⟨(t, s), hmem, rfl⟩
      simp only [lookupPerf, List.find?_cons, decide_eq_true_eq, hne, if_false]
      exact ih hnd.2 hmem

theorem lookupPerf_mem {acc : List (InterviewType × TypeStats)} {t : InterviewType}
    {s : TypeStats} (h : lookupPerf acc t = some s) : (t, s) ∈ acc := by
  unfold lookupPerf at h
  cases hf : acc.find? (fun q => decide (q.1 = t)) with
  | none => rw [hf] at h; exact absurd h (by simp)
  | some q =>
    rw [hf] at h
    have hq := List.mem_of_find?_eq_some hf
    have hkey : q.1 = t := by simpa using List.find?_some hf
    have hs : q.2 = s := by simpa using h
    obtain ⟨q1, q2⟩ := q
    simp only at hkey hs
    subst hkey
    subst hs
    exact hq

theorem plainFoldT_total (ts : List ((InterviewType × Outcome) × Nat)) :
    ∀ s : TypeStats, (plainFoldT ts s).total = s.total + (ts.map Prod.snd).sum := by
  induction ts with
  | nil => intro s; simp [plainFoldT]
  | cons g ts ih =>
    intro s
    unfold plainFoldT
    rw [List.foldl_cons]
    have := ih (applyInterviewGroup s g.1.2 g.2)
    unfold plainFoldT at this
    rw [this, applyInterviewGroup_total, List.map_cons, List.sum_cons]
    omega

theorem plainFoldT_field_notmem (o : Outcome) :
    ∀ ts : List ((InterviewType × Outcome) × Nat), (o ∉ ts.map fun g => g.1.2) →
      ∀ s : TypeStats, outcomeField o (plainFoldT ts s) = outcomeField o s := by
  intro ts
  induction ts with
  | nil => intro _ s; rfl
  | cons g ts ih =>
    intro h s
    rw [List.map_cons] at h
    have h1 : g.1.2 ≠ o := fun h2 => h (h2 ▸ List.mem_cons_self _ _)
    have h2 : o ∉ ts.map fun g => g.1.2 := fun h3 => h (List.mem_cons_of_mem _ h3)
    unfold plainFoldT
    rw [List.foldl_cons]
    have := ih h2 (applyInterviewGroup s g.1.2 g.2)
    unfold plainFoldT at this
    rw [this, applyInterviewGroup_field, if_neg h1]

theorem plainFoldT_field_mem :
    ∀ ts : List ((InterviewType × Outcome) × Nat), ((ts.map fun g => g.1.2).Nodup) →
      ∀ g0 ∈ ts, ∀ s : TypeStats, outcomeField g0.1.2 (plainFoldT ts s) = g0.2 := by
  intro ts
  induction ts with
  | nil => intro _ g0 h; exact absurd h (List.not_mem_nil _)
  | cons g ts ih =>
    intro hnd g0 hg0 s
    rw [List.map_cons, List.nodup_cons] at hnd
    rcases List.mem_cons.mp hg0 with heq | hmem
    · subst heq
      unfold plainFoldT
      rw [List.foldl_cons]
      have hno : g0.1.2 ∉ ts.map fun g => g.1.2 := hnd.1
      have := plainFoldT_field_notmem g0.1.2 ts hno (applyInterviewGroup s g0.1.2 g0.2)
      unfold plainFoldT at this
      rw [this, applyInterviewGroup_field, if_pos rfl]
    · unfold plainFoldT
      rw [List.foldl_cons]
      exact ih hnd.2 g0 hmem _

theorem flatMap_filter_nonempty :
    ∀ l : List Job,
      (l.filter fun j => !j.interviewDates.isEmpty).flatMap Job.interviewDates
        = l.flatMap Job.interviewDates := by
  intro l
  induction l with
  | nil => rfl
  | cons j l ih =>
    by_cases h : j.interviewDates.isEmpty
    · have hnil : j.interviewDates = [] := by simpa using h
      simp [List.filter_cons, h, ih, hnil]
    · simp [List.filter_cons, h, ih]

theorem interviewEntries_eq (jobs : List Job) (userId : Nat) :
    interviewEntries jobs userId = (userRecords jobs userId).flatMap Job.interviewDates := by
  unfold interviewEntries
  exact flatMap_filter_nonempty _

/-- Pointwise identity between the pair-key filter of the interviews
pipeline and the conjunction of the per-component filters. -/
theorem filter_pair_eq (E : List Interview) (t : InterviewType) (o : Outcome) :
    E.filter (fun iv => decide ((iv.type, iv.outcome) = (t, o)))
      = E.filter (fun iv => decide (iv.type = t) && decide (iv.outcome = o)) := by
  apply List.filter_congr
  intro iv _
  by_cases h1 : iv.type = t <;> by_cases h2 : iv.outcome = o <;> simp [h1, h2]

theorem mem_interviewGroups {jobs : List Job} {userId : Nat}
    {g : (InterviewType × Outcome) × Nat} (h : g ∈ interviewGroups jobs userId) :
    g.2 = ((interviewEntries jobs userId).filter
        fun iv => decide ((iv.type, iv.outcome) = g.1)).length ∧ 0 < g.2 := by
  unfold interviewGroups at h
  have h2 := (perm_sortLe interviewKeyLe _).mem_iff.mp h
  obtain ⟨grp, hgrp, heq⟩ := List.mem_map.mp h2
  obtain ⟨hds, hpos⟩ := mem_groupBy_facts hgrp
  obtain ⟨gk, gc⟩ := g
  injection heq with he1 he2
  subst he1
  subst he2
  exact ⟨by rw [hds], by rw [hds] at hpos ⊢; exact hpos⟩

theorem nodup_keys_interviewGroups (jobs : List Job) (userId : Nat) :
    ((interviewGroups jobs userId).map Prod.fst).Nodup := by
  unfold interviewGroups
  have hperm := (perm_sortLe interviewKeyLe
    ((groupBy (fun iv => (iv.type, iv.outcome)) (interviewEntries jobs userId)).map
      fun g => (g.1, g.2.length))).map Prod.fst
  rw [hperm.nodup_iff, List.map_map]
  have hcomp : (Prod.fst ∘ fun g : (InterviewType × Outcome) × List Interview =>
      (g.1, g.2.length)) = Prod.fst := rfl
  rw [hcomp]
  exact nodup_keys_groupBy _ _

theorem sum_groupBy_filter {κ α : Type} [DecidableEq κ] (key : α → κ) (docs : List α)
    (P : κ → Bool) :
    (((groupBy key docs).filter fun g => P g.1).map fun g => g.2.length).sum
      = (docs.filter fun d => P (key d)).length := by
  unfold groupBy
  rw [List.filter_map, List.map_map]
  have h1 : ((fun g : κ × List α => P g.1) ∘
      fun k => (k, docs.filter fun d => decide (key d = k))) = fun k => P k := rfl
  have h2 : ((fun g : κ × List α => g.2.length) ∘
      fun k => (k, docs.filter fun d => decide (key d = k)))
      = fun k => (docs.filter fun d => decide (key d = k)).length := rfl
  rw [h1, h2]
  have h3 : ((distinctKeys (docs.map key)).filter fun k => P k).map
        (fun k => (docs.filter fun d => decide (key d = k)).length)
      = ((distinctKeys (docs.map key)).filter fun k => P k).map
        (fun k => ((docs.filter fun d => P (key d)).filter
          fun d => decide (key d = k)).length) := by
    apply List.map_congr_left
    intro k hk
    rw [List.mem_filter] at hk
    have hPk : P k = true := hk.2
    congr 1
    rw [List.filter_filter]
    apply List.filter_congr
    intro d _
    by_cases hd : key d = k
    · simp [hd, hPk]
    · simp [hd]
  rw [h3]
  apply sum_filter_length_eq key
  · exact List.Nodup.filter _ (nodup_distinctKeys _)
  · intro d hd
    rw [List.mem_filter] at hd ⊢
    exact ⟨(mem_distinctKeys _ _).mpr (List.mem_map_of_mem key hd.1), hd.2⟩

theorem sum_interviewGroups_type (jobs : List Job) (userId : Nat) (t : InterviewType) :
    ((((interviewGroups jobs userId).filter fun g => decide (g.1.1 = t)).map Prod.snd).sum)
      = ((interviewEntries jobs userId).filter fun iv => decide (iv.type = t)).length := by
  have hperm : (interviewGroups jobs userId).Perm
      ((groupBy (fun iv => (iv.type, iv.outcome)) (interviewEntries jobs userId)).map
        fun g => (g.1, g.2.length)) := by
    unfold interviewGroups
    exact perm_sortLe _ _
  have hperm2 := (hperm.filter (fun g => decide (g.1.1 = t))).map Prod.snd
  rw [hperm2.sum_eq]
  rw [List.filter_map, List.map_map]
  have h1 : ((fun g : (InterviewType × Outcome) × Nat => decide (g.1.1 = t)) ∘
      (fun g : (InterviewType × Outcome) × List Interview => (g.1, g.2.length)))
      = fun g : (InterviewType × Outcome) × List Interview => decide (g.1.1 = t) := rfl
  have h2 : (Prod.snd ∘
      (fun g : (InterviewType × Outcome) × List Interview => (g.1, g.2.length)))
      = fun g : (InterviewType × Outcome) × List Interview => g.2.length := rfl
  rw [h1, h2]
  exact sum_groupBy_filter (fun iv : Interview => (iv.type, iv.outcome))
    (interviewEntries jobs userId) (fun k => decide (k.1 = t))

theorem perf_entry_facts (jobs : List Job) (userId : Nat) {t : InterviewType}
    {st : TypeStats}
    (hmem : (t, st) ∈ (interviewGroups jobs userId).foldl updatePerf []) :
    (∀ o : Outcome, outcomeField o st
        = ((interviewEntries jobs userId).filter
            fun iv => decide ((iv.type, iv.outcome) = (t, o))).length) ∧
    st.total = ((interviewEntries jobs userId).filter
        fun iv => decide (iv.type = t)).length ∧
    0 < st.total := by
  have hnd : (((interviewGroups jobs userId).foldl updatePerf []).map Prod.fst).Nodup :=
    nodup_keys_foldl_updatePerf _ [] (by simp)
  have hlook := lookupPerf_of_mem hnd hmem
  rw [lookupPerf_foldl, lookupPerf_nil, perfFoldT_none] at hlook
  set ts := (interviewGroups jobs userId).filter (fun g => decide (g.1.1 = t)) with hts
  by_cases hempty : ts = []
  · rw [if_pos hempty] at hlook
    exact absurd hlook (by simp)
  rw [if_neg hempty] at hlook
  have hst : st = plainFoldT ts initTypeStats := by
    have := Option.some.inj hlook
    exact this.symm
  have hts_mem : ∀ g ∈ ts, g.1.1 = t ∧
      g.2 = ((interviewEntries jobs userId).filter
        fun iv => decide ((iv.type, iv.outcome) = g.1)).length ∧ 0 < g.2 := by
    intro g hg
    rw [hts, List.mem_filter] at hg
    have h1 : g.1.1 = t := by simpa using hg.2
    obtain ⟨h2, h3⟩ := mem_interviewGroups hg.1
    exact ⟨h1, h2, h3⟩
  have htsknd : (ts.map Prod.fst).Nodup := by
    rw [hts]
    exact List.Nodup.sublist (List.Sublist.map Prod.fst (List.filter_sublist _))
      (nodup_keys_interviewGroups jobs userId)
  have hond : ((ts.map fun g => g.1.2)).Nodup := by
    have hpw : ts.Pairwise (fun a b => a.1 ≠ b.1) := List.pairwise_map.mp htsknd
    have hpw2 : ts.Pairwise (fun a b => a.1.2 ≠ b.1.2) := by
      apply List.Pairwise.imp_of_mem ?_ hpw
      intro a b ha hb hne he2
      apply hne
      have ha1 := (hts_mem a ha).1
      have hb1 := (hts_mem b hb).1
      exact Prod.ext (ha1.trans hb1.symm) he2
    exact List.pairwise_map.mpr hpw2
  have hoccur : ∀ o : Outcome,
      ((interviewEntries jobs userId).filter
        fun iv => decide ((iv.type, iv.outcome) = (t, o))) ≠ [] →
      o ∈ ts.map fun g => g.1.2 := by
    intro o hne
    obtain ⟨iv, hiv⟩ := List.exists_mem_of_ne_nil _ hne
    have hiv2 := List.mem_filter.mp hiv
    have hpair : (iv.type, iv.outcome) = (t, o) := of_decide_eq_true hiv2.2
    have hkey : (t, o) ∈ (interviewEntries jobs userId).map
        fun iv => (iv.type, iv.outcome) :=
      List.mem_map.mpr ⟨iv, hiv2.1, hpair⟩
    have hgrp := groupBy_mem_of_key hkey
    have hmapped : ((t, o), ((interviewEntries jobs userId).filter fun iv =>
        decide ((fun iv => (iv.type, iv.outcome)) iv = (t, o))).length)
        ∈ (groupBy (fun iv => (iv.type, iv.outcome)) (interviewEntries jobs userId)).map
            (fun g => (g.1, g.2.length)) :=
      List.mem_map.mpr ⟨_, hgrp, rfl⟩
    have hings : ((t, o), ((interviewEntries jobs userId).filter fun iv =>
        decide ((fun iv => (iv.type, iv.outcome)) iv = (t, o))).length)
        ∈ interviewGroups jobs userId := by
      unfold interviewGroups
      exact (perm_sortLe _ _).mem_iff.mpr hmapped
    have hints : ((t, o), ((interviewEntries jobs userId).filter fun iv =>
        decide ((fun iv => (iv.type, iv.outcome)) iv = (t, o))).length) ∈ ts := by
      rw [hts]
      exact List.mem_filter.mpr ⟨hings, by simp⟩
    exact List.mem_map.mpr ⟨_, hints, rfl⟩
  refine ⟨?_, ?_, ?_⟩
  · intro o
    by_cases hcase : o ∈ ts.map fun g => g.1.2
    · obtain ⟨g0, hg0, ho⟩ := List.mem_map.mp hcase
      rw [hst, ← ho, plainFoldT_field_mem ts hond g0 hg0]
      have hkey0 : g0.1 = (t, g0.1.2) := by
        rw [← (hts_mem g0 hg0).1]
      rw [(hts_mem g0 hg0).2.1, hkey0]
    · rw [hst, plainFoldT_field_notmem o ts hcase]
      have hinit : outcomeField o initTypeStats = 0 := by cases o <;> rfl
      rw [hinit]
      rcases hfil : (interviewEntries jobs userId).filter
          (fun iv => decide ((iv.type, iv.outcome) = (t, o))) with _ | ⟨iv, rest⟩
      · rw [hfil]
        rfl
      · exact absurd (hoccur o (by rw [hfil]; exact List.cons_ne_nil _ _)) hcase
  · rw [hst, plainFoldT_total]
    have h0 : initTypeStats.total = 0 := rfl
    rw [h0, hts, sum_interviewGroups_type]
    omega
  · rw [hst, plainFoldT_total]
    obtain ⟨g0, hg0⟩ := List.exists_mem_of_ne_nil _ hempty
    have hpos := (hts_mem g0 hg0).2.2
    have hmem2 : g0.2 ∈ ts.map Prod.snd := List.mem_map.mpr ⟨g0, hg0, rfl⟩
    have hle := List.single_le_sum (fun (x : Nat) _ => Nat.zero_le x) _ hmem2
    omega

/-! ### Claim theorems -/

/-- C1: every analytics endpoint is a function of the requesting user's own
records only: two stores that agree on the records owned by the requesting
user (in store order) produce identical responses from all six endpoints,
whatever the other users' records are. -/
theorem C1_user_scoped (jobs1 jobs2 : List Job) (userId : Nat)
    (h : userRecords jobs1 userId = userRecords jobs2 userId)
    (startDate now : Int) (limit : Nat) (p : TrendPeriod) :
    statsHandler jobs1 userId = statsHandler jobs2 userId ∧
    timelineHandler jobs1 userId startDate = timelineHandler jobs2 userId startDate ∧
    companiesHandler jobs1 userId now limit = companiesHandler jobs2 userId now limit ∧
    locationsHandler jobs1 userId = locationsHandler jobs2 userId ∧
    interviewsHandler jobs1 userId = interviewsHandler jobs2 userId ∧
    trendsHandler jobs1 userId startDate p = trendsHandler jobs2 userId startDate p := by
  refine ⟨?_, ?_, ?_, ?_, ?_, ?_⟩
  · unfold statsHandler getUserStats
    rw [h]
  · unfold timelineHandler timelineSorted windowRecords
    rw [h]
  · unfold companiesHandler companyGroups
    rw [h]
  · unfold locationsHandler locationGroups
    rw [h]
  · unfold interviewsHandler interviewGroups interviewEntries
    rw [h]
  · unfold trendsHandler trendsSorted windowRecords
    rw [h]

/-- Witness for C1 at two concrete stores that agree on user 1's records and
differ on user 2's records. -/
theorem C1_user_scoped_witness :
    statsHandler [jobAcme1, jobOther] 1 = statsHandler [jobAcme1, jobOther2] 1 ∧
    timelineHandler [jobAcme1, jobOther] 1 0 = timelineHandler [jobAcme1, jobOther2] 1 0 ∧
    companiesHandler [jobAcme1, jobOther] 1 0 10 = companiesHandler [jobAcme1, jobOther2] 1 0 10 ∧
    locationsHandler [jobAcme1, jobOther] 1 = locationsHandler [jobAcme1, jobOther2] 1 ∧
    interviewsHandler [jobAcme1, jobOther] 1 = interviewsHandler [jobAcme1, jobOther2] 1 ∧
    trendsHandler [jobAcme1, jobOther] 1 0 .month = trendsHandler [jobAcme1, jobOther2] 1 0 .month :=
  C1_user_scoped [jobAcme1, jobOther] [jobAcme1, jobOther2] 1 rfl 0 0 10 .month

/-- C2: the stats view reports exactly the six fields of `StatsObj`; every
status of the fixed five-value enum is reported even when absent (count 0),
and total equals the sum of the five per-status counts, which equals the
number of records owned by the requesting user. -/
theorem C2_stats_counts (jobs : List Job) (userId : Nat) :
    (statsHandler jobs userId).applied
        = ((userRecords jobs userId).filter fun j => decide (j.status = .applied)).length ∧
    (statsHandler jobs userId).interviewing
        = ((userRecords jobs userId).filter fun j => decide (j.status = .interviewing)).length ∧
    (statsHandler jobs userId).offered
        = ((userRecords jobs userId).filter fun j => decide (j.status = .offered)).length ∧
    (statsHandler jobs userId).rejected
        = ((userRecords jobs userId).filter fun j => decide (j.status = .rejected)).length ∧
    (statsHandler jobs userId).withdrawn
        = ((userRecords jobs userId).filter fun j => decide (j.status = .withdrawn)).length ∧
    (statsHandler jobs userId).total
        = (statsHandler jobs userId).applied + (statsHandler jobs userId).interviewing
          + (statsHandler jobs userId).offered + (statsHandler jobs userId).rejected
          + (statsHandler jobs userId).withdrawn ∧
    (statsHandler jobs userId).total = (userRecords jobs userId).length := by
  have ha := statField_statsHandler jobs userId .applied
  have hi := statField_statsHandler jobs userId .interviewing
  have ho := statField_statsHandler jobs userId .offered
  have hr := statField_statsHandler jobs userId .rejected
  have hw := statField_statsHandler jobs userId .withdrawn
  have ht := total_statsHandler jobs userId
  simp only [statField] at ha hi ho hr hw
  refine ⟨ha, hi, ho, hr, hw, ?_, ht⟩
  rw [ht, ha, hi, ho, hr, hw]
  have h5 := sum_filter_length_eq Job.status
    [.applied, .interviewing, .offered, .rejected, .withdrawn] (userRecords jobs userId)
    (by decide) (fun j _ => by cases h : j.status <;> simp [h])
  simp only [List.map_cons, List.map_nil, List.sum_cons, List.sum_nil] at h5
  omega

/-- C3: a requesting user who owns zero records gets zero-valued aggregates
from every analytics endpoint, never an error: all six stats counts are 0,
the timeline, companies, locations and trends lists are empty, and the
interview performance object is empty. -/
theorem C3_empty_store (jobs : List Job) (userId : Nat) (startDate now : Int)
    (limit : Nat) (p : TrendPeriod) (h : userRecords jobs userId = []) :
    statsHandler jobs userId = initStats ∧
    timelineHandler jobs userId startDate = [] ∧
    companiesHandler jobs userId now limit = [] ∧
    locationsHandler jobs userId = [] ∧
    interviewsHandler jobs userId = [] ∧
    trendsHandler jobs userId startDate p = [] := by
  refine ⟨?_, ?_, ?_, ?_, ?_, ?_⟩ <;>
    simp [statsHandler, getUserStats, timelineHandler, timelineSorted, windowRecords,
      companiesHandler, companyGroups, locationsHandler, locationGroups,
      interviewsHandler, interviewGroups, interviewEntries, trendsHandler, trendsSorted,
      groupBy, distinctKeys, sortLe, h, initStats]

/-- Witness for C3: user 1 owns no record of the concrete store `[jobOther]`. -/
theorem C3_empty_store_witness :
    statsHandler [jobOther] 1 = initStats ∧
    timelineHandler [jobOther] 1 0 = [] ∧
    companiesHandler [jobOther] 1 0 10 = [] ∧
    locationsHandler [jobOther] 1 = [] ∧
    interviewsHandler [jobOther] 1 = [] ∧
    trendsHandler [jobOther] 1 0 .month = [] :=
  C3_empty_store [jobOther] 1 0 0 10 .month rfl

/-- C4: in the interview performance view each interview entry is one unit
of aggregation: a type's bucket appears only when the user has an entry of
that type; for every bucket, total = passed + failed + pending and total
equals the number of interview entries of that type across all the user's
records (a record with k entries contributes k units, possibly to different
buckets); successRate is 100 × passed/total rounded to 2 decimals, 0 when
total is 0; and every type with at least one entry gets a bucket. -/
theorem C4_interview_unit_aggregation (jobs : List Job) (userId : Nat) :
    (∀ (t : InterviewType) (s : TypeStats), (t, s) ∈ interviewsHandler jobs userId →
      s.total = s.passed + s.failed + s.pending ∧
      s.total = (((userRecords jobs userId).flatMap Job.interviewDates).filter
          fun iv => decide (iv.type = t)).length ∧
      s.passed = (((userRecords jobs userId).flatMap Job.interviewDates).filter
          fun iv => decide (iv.type = t) && decide (iv.outcome = Outcome.passed)).length ∧
      s.failed = (((userRecords jobs userId).flatMap Job.interviewDates).filter
          fun iv => decide (iv.type = t) && decide (iv.outcome = Outcome.failed)).length ∧
      s.pending = (((userRecords jobs userId).flatMap Job.interviewDates).filter
          fun iv => decide (iv.type = t) && decide (iv.outcome = Outcome.pending)).length ∧
      0 < s.total ∧
      s.successRate
        = (if 0 < s.total then round2 (((s.passed : ℚ) / (s.total : ℚ)) * 100) else 0)) ∧
    (∀ t : InterviewType,
      0 < (((userRecords jobs userId).flatMap Job.interviewDates).filter
          fun iv => decide (iv.type = t)).length →
      ∃ s : TypeStats, (t, s) ∈ interviewsHandler jobs userId) := by
  constructor
  · intro t s hts
    unfold interviewsHandler at hts
    obtain ⟨q, hq, heq⟩ := List.mem_map.mp hts
    injection heq with he1 he2
    subst he1
    subst he2
    obtain ⟨hfield, htot, hpos⟩ := perf_entry_facts jobs userId hq
    rw [interviewEntries_eq] at htot
    have hp := hfield Outcome.passed
    have hf := hfield Outcome.failed
    have hpe := hfield Outcome.pending
    rw [interviewEntries_eq, filter_pair_eq] at hp hf hpe
    simp only [outcomeField] at hp hf hpe
    have h3 := sum_filter_length_eq Interview.outcome
      [Outcome.passed, Outcome.failed, Outcome.pending]
      (((userRecords jobs userId).flatMap Job.interviewDates).filter
        fun iv => decide (iv.type = q.1))
      (by decide) (fun iv _ => by cases h : iv.outcome <;> simp [h])
    simp only [List.map_cons, List.map_nil, List.sum_cons, List.sum_nil] at h3
    rw [List.filter_filter, List.filter_filter, List.filter_filter] at h3
    have hcomm : ∀ o : Outcome,
        (((userRecords jobs userId).flatMap Job.interviewDates).filter
          fun a => decide (a.outcome = o) && decide (a.type = q.1))
        = (((userRecords jobs userId).flatMap Job.interviewDates).filter
          fun iv => decide (iv.type = q.1) && decide (iv.outcome = o)) := by
      intro o
      apply List.filter_congr
      intro a _
      exact Bool.and_comm _ _
    rw [hcomm Outcome.passed, hcomm Outcome.failed, hcomm Outcome.pending] at h3
    refine ⟨?_, ?_, ?_, ?_, ?_, ?_, ?_⟩
    · dsimp only
      omega
    · dsimp only
      exact htot
    · dsimp only
      exact hp
    · dsimp only
      exact hf
    · dsimp only
      exact hpe
    · dsimp only
      exact hpos
    · rfl
  · intro t hpos
    rw [← interviewEntries_eq] at hpos
    have hne : ((interviewEntries jobs userId).filter
        fun iv => decide (iv.type = t)) ≠ [] := by
      intro h0
      rw [h0] at hpos
      simp at hpos
    obtain ⟨iv, hiv⟩ := List.exists_mem_of_ne_nil _ hne
    have hiv2 := List.mem_filter.mp hiv
    have hivt : iv.type = t := of_decide_eq_true hiv2.2
    have hkey : (t, iv.outcome) ∈ (interviewEntries jobs userId).map
        fun iv => (iv.type, iv.outcome) :=
      List.mem_map.mpr ⟨iv, hiv2.1, by rw [hivt]⟩
    have hgrp := groupBy_mem_of_key hkey
    have hmapped : ((t, iv.outcome), ((interviewEntries jobs userId).filter fun iv2 =>
        decide ((fun iv2 => (iv2.type, iv2.outcome)) iv2 = (t, iv.outcome))).length)
        ∈ (groupBy (fun iv => (iv.type, iv.outcome)) (interviewEntries jobs userId)).map
            (fun g => (g.1, g.2.length)) :=
      List.mem_map.mpr ⟨_, hgrp, rfl⟩
    have hings : ((t, iv.outcome), ((interviewEntries jobs userId).filter fun iv2 =>
        decide ((fun iv2 => (iv2.type, iv2.outcome)) iv2 = (t, iv.outcome))).length)
        ∈ interviewGroups jobs userId := by
      unfold interviewGroups
      exact (perm_sortLe _ _).mem_iff.mpr hmapped
    have hints : ((t, iv.outcome), ((interviewEntries jobs userId).filter fun iv2 =>
        decide ((fun iv2 => (iv2.type, iv2.outcome)) iv2 = (t, iv.outcome))).length)
        ∈ (interviewGroups jobs userId).filter (fun g => decide (g.1.1 = t)) :=
      List.mem_filter.mpr ⟨hings, by simp⟩
    have htsne : (interviewGroups jobs userId).filter (fun g => decide (g.1.1 = t)) ≠ [] :=
      List.ne_nil_of_mem hints
    have hlook : lookupPerf ((interviewGroups jobs userId).foldl updatePerf []) t
        = some (plainFoldT ((interviewGroups jobs userId).filter
            fun g => decide (g.1.1 = t)) initTypeStats) := by
      rw [lookupPerf_foldl, lookupPerf_nil, perfFoldT_none, if_neg htsne]
    have hmem2 := lookupPerf_mem hlook
    unfold interviewsHandler
    exact ⟨_, List.mem_map.mpr ⟨_, hmem2, rfl⟩⟩

/-- Witness for C4 at the concrete store `[jobAcme2]` (a record with two
phone interviews), whose interview performance is `[(phone, phoneStats)]`. -/
theorem C4_interview_unit_aggregation_witness :
    phoneStats.total = phoneStats.passed + phoneStats.failed + phoneStats.pending ∧
    phoneStats.total = (((userRecords [jobAcme2] 1).flatMap Job.interviewDates).filter
        fun iv => decide (iv.type = InterviewType.phone)).length ∧
    phoneStats.passed = (((userRecords [jobAcme2] 1).flatMap Job.interviewDates).filter
        fun iv => decide (iv.type = InterviewType.phone)
          && decide (iv.outcome = Outcome.passed)).length ∧
    phoneStats.failed = (((userRecords [jobAcme2] 1).flatMap Job.interviewDates).filter
        fun iv => decide (iv.type = InterviewType.phone)
          && decide (iv.outcome = Outcome.failed)).length ∧
    phoneStats.pending = (((userRecords [jobAcme2] 1).flatMap Job.interviewDates).filter
        fun iv => decide (iv.type = InterviewType.phone)
          && decide (iv.outcome = Outcome.pending)).length ∧
    0 < phoneStats.total ∧
    phoneStats.successRate
      = (if 0 < phoneStats.total
         then round2 (((phoneStats.passed : ℚ) / (phoneStats.total : ℚ)) * 100)
         else 0) :=
  (C4_interview_unit_aggregation [jobAcme2] 1).1 InterviewType.phone phoneStats
    (by rw [interviewsHandler_jobAcme2]; exact List.mem_singleton.mpr rfl)

/-- C5: in the companies and locations views every group's successRate is
100 × (count of the group's records with status offered or interviewing) /
(group total), rounded to two decimals, hence always in [0, 100]; company
groups are ordered by descending count and limited to `limit`; location
groups are ordered by descending count, unlimited (every nonempty location
of the user's records appears), and records with an empty or missing
location are excluded from the location view. -/
theorem C5_group_success_rates (jobs : List Job) (userId : Nat) (now : Int) (limit : Nat) :
    (∀ e ∈ companiesHandler jobs userId now limit,
      0 < ((userRecords jobs userId).filter fun j => decide (j.company = e.company)).length ∧
      e.totalApplications
        = ((userRecords jobs userId).filter fun j => decide (j.company = e.company)).length ∧
      e.successRate = round2
        (((((userRecords jobs userId).filter fun j => decide (j.company = e.company)).filter
              fun j => isSuccessStatus j.status).length : ℚ)
          / (((userRecords jobs userId).filter fun j => decide (j.company = e.company)).length : ℚ)
          * 100) ∧
      0 ≤ e.successRate ∧ e.successRate ≤ 100) ∧
    (companiesHandler jobs userId now limit).Pairwise
      (fun a b => b.totalApplications ≤ a.totalApplications) ∧
    (companiesHandler jobs userId now limit).length ≤ limit ∧
    (∀ e ∈ locationsHandler jobs userId,
      e.location ≠ "" ∧
      0 < (((userRecords jobs userId).filter hasLocation).filter
            fun j => decide (j.location.getD "" = e.location)).length ∧
      e.totalApplications
        = (((userRecords jobs userId).filter hasLocation).filter
            fun j => decide (j.location.getD "" = e.location)).length ∧
      e.successRate = round2
        ((((((userRecords jobs userId).filter hasLocation).filter
                fun j => decide (j.location.getD "" = e.location)).filter
              fun j => isSuccessStatus j.status).length : ℚ)
          / ((((userRecords jobs userId).filter hasLocation).filter
                fun j => decide (j.location.getD "" = e.location)).length : ℚ)
          * 100) ∧
      0 ≤ e.successRate ∧ e.successRate ≤ 100) ∧
    (locationsHandler jobs userId).Pairwise
      (fun a b => b.totalApplications ≤ a.totalApplications) ∧
    (∀ s : String, s ≠ "" → (∃ j ∈ userRecords jobs userId, j.location = some s) →
      ∃ e ∈ locationsHandler jobs userId, e.location = s) := by
  refine ⟨?_, ?_, ?_, ?_, ?_, ?_⟩
  · intro e he
    unfold companiesHandler at he
    obtain ⟨g, hg, rfl⟩ := List.mem_map.mp he
    obtain ⟨hds, hpos⟩ := mem_companyGroups hg
    dsimp only
    rw [← hds]
    have hsucc : ((g.2.map Job.status).filter isSuccessStatus).length
        = (g.2.filter fun j => isSuccessStatus j.status).length :=
      length_filter_map Job.status isSuccessStatus g.2
    have hle : ((g.2.map Job.status).filter isSuccessStatus).length ≤ g.2.length := by
      calc ((g.2.map Job.status).filter isSuccessStatus).length
          ≤ (g.2.map Job.status).length := List.length_filter_le _ _
        _ = g.2.length := List.length_map _ _
    obtain ⟨hb0, hb100⟩ := successRate_arg_bounds hle hpos
    refine ⟨hpos, rfl, ?_, ?_, ?_⟩
    · rw [if_pos hpos, hsucc]
    · rw [if_pos hpos]
      exact round2_nonneg hb0
    · rw [if_pos hpos]
      exact round2_le_100 hb100
  · unfold companiesHandler
    rw [List.pairwise_map]
    have hp := pairwise_sortLe countDesc_total countDesc_trans
      (groupBy Job.company (userRecords jobs userId))
    have hp2 : (companyGroups jobs userId limit).Pairwise
        (fun a b => countDesc a b = true) := by
      unfold companyGroups
      exact List.Pairwise.sublist (List.take_sublist _ _) hp
    exact hp2.imp fun hab => of_decide_eq_true hab
  · unfold companiesHandler companyGroups
    rw [List.length_map]
    exact List.length_take_le _ _
  · intro e he
    unfold locationsHandler at he
    obtain ⟨g, hg, rfl⟩ := List.mem_map.mp he
    obtain ⟨hds, hpos, hne⟩ := mem_locationGroups hg
    dsimp only
    rw [← hds]
    have hsucc : ((g.2.map Job.status).filter isSuccessStatus).length
        = (g.2.filter fun j => isSuccessStatus j.status).length :=
      length_filter_map Job.status isSuccessStatus g.2
    have hle : ((g.2.map Job.status).filter isSuccessStatus).length ≤ g.2.length := by
      calc ((g.2.map Job.status).filter isSuccessStatus).length
          ≤ (g.2.map Job.status).length := List.length_filter_le _ _
        _ = g.2.length := List.length_map _ _
    obtain ⟨hb0, hb100⟩ := successRate_arg_bounds hle hpos
    refine ⟨hne, hpos, rfl, ?_, ?_, ?_⟩
    · rw [if_pos hpos, hsucc]
    · rw [if_pos hpos]
      exact round2_nonneg hb0
    · rw [if_pos hpos]
      exact round2_le_100 hb100
  · unfold locationsHandler
    rw [List.pairwise_map]
    have hp := pairwise_sortLe countDesc_total countDesc_trans
      (groupBy (fun j => j.location.getD "") ((userRecords jobs userId).filter hasLocation))
    have hp2 : (locationGroups jobs userId).Pairwise (fun a b => countDesc a b = true) := hp
    exact hp2.imp fun hab => of_decide_eq_true hab
  · intro s hs hex
    obtain ⟨j, hj, hloc⟩ := hex
    have hjf : j ∈ (userRecords jobs userId).filter hasLocation :=
      List.mem_filter.mpr ⟨hj, by simp [hasLocation, hloc, hs]⟩
    have hkey : s ∈ ((userRecords jobs userId).filter hasLocation).map
        (fun j => j.location.getD "") :=
      List.mem_map.mpr ⟨j, hjf, by rw [hloc]; rfl⟩
    have hgrp := groupBy_mem_of_key hkey
    have hsrt := (perm_sortLe countDesc _).mem_iff.mpr hgrp
    refine ⟨_, List.mem_map_of_mem _ hsrt, rfl⟩

/-- Witness for C5 at the concrete store `[jobFuture]` (user 1, request time
0, limit 10), whose companies view is `[acmeFutureInsight]`. -/
theorem C5_group_success_rates_witness :
    0 < ((userRecords [jobFuture] 1).filter fun j =>
        decide (j.company = acmeFutureInsight.company)).length ∧
    acmeFutureInsight.totalApplications
      = ((userRecords [jobFuture] 1).filter fun j =>
          decide (j.company = acmeFutureInsight.company)).length ∧
    acmeFutureInsight.successRate = round2
      (((((userRecords [jobFuture] 1).filter fun j =>
            decide (j.company = acmeFutureInsight.company)).filter
            fun j => isSuccessStatus j.status).length : ℚ)
        / (((userRecords [jobFuture] 1).filter fun j =>
            decide (j.company = acmeFutureInsight.company)).length : ℚ)
        * 100) ∧
    0 ≤ acmeFutureInsight.successRate ∧ acmeFutureInsight.successRate ≤ 100 :=
  (C5_group_success_rates [jobFuture] 1 0 10).1 acmeFutureInsight
    (by rw [companiesHandler_jobFuture]; exact List.mem_singleton.mpr rfl)

/-- C6: every rate computation in every analytics view guards division by
zero: a zero denominator (group total, per-type interview total, bucket
total, or bucket interviewing count) yields the rate exactly 0.  In this
exact-rational model every emitted rate is a finite rational, so no NaN or
infinity can appear in a response. -/
theorem C6_div_zero_guards (jobs : List Job) (userId : Nat) (now startDate : Int)
    (limit : Nat) (p : TrendPeriod) :
    (∀ e ∈ companiesHandler jobs userId now limit,
      e.totalApplications = 0 → e.successRate = 0) ∧
    (∀ e ∈ locationsHandler jobs userId,
      e.totalApplications = 0 → e.successRate = 0) ∧
    (∀ q ∈ interviewsHandler jobs userId,
      q.2.total = 0 → q.2.successRate = 0) ∧
    (∀ e ∈ trendsHandler jobs userId startDate p,
      (e.totalApplications = 0 →
        e.applicationToInterviewRate = 0 ∧ e.overallSuccessRate = 0) ∧
      (e.interviewing = 0 → e.interviewToOfferRate = 0)) := by
  refine ⟨?_, ?_, ?_, ?_⟩
  · intro e he h0
    unfold companiesHandler at he
    obtain ⟨g, hg, rfl⟩ := List.mem_map.mp he
    dsimp only at h0 ⊢
    simp [h0, round2_zero]
  · intro e he h0
    unfold locationsHandler at he
    obtain ⟨g, hg, rfl⟩ := List.mem_map.mp he
    dsimp only at h0 ⊢
    simp [h0, round2_zero]
  · intro q hq h0
    unfold interviewsHandler at hq
    obtain ⟨r, hr, rfl⟩ := List.mem_map.mp hq
    dsimp only at h0 ⊢
    simp [h0]
  · intro e he
    unfold trendsHandler at he
    obtain ⟨g, hg, rfl⟩ := List.mem_map.mp he
    dsimp only
    constructor
    · intro h0
      constructor <;> simp [h0]
    · intro h0
      simp [h0]

/-- Witness for C6 at the concrete store `[jobFuture]`: its single monthly
trend bucket has interviewing = 0 and reports interviewToOfferRate = 0. -/
theorem C6_div_zero_guards_witness :
    (trendFutureEntry.totalApplications = 0 →
      trendFutureEntry.applicationToInterviewRate = 0 ∧
      trendFutureEntry.overallSuccessRate = 0) ∧
    (trendFutureEntry.interviewing = 0 → trendFutureEntry.interviewToOfferRate = 0) :=
  (C6_div_zero_guards [jobFuture] 1 0 0 10 .month).2.2.2 trendFutureEntry
    (by rw [trendsHandler_jobFuture]; exact List.mem_singleton.mpr rfl)

/-- Counterexample to C7 as stated: for the store `[jobFuture]` (a single
future-dated application, request time 0) the companies view emits
avgDaysSinceApplication = 0, while the round-half-away-from-zero rounding of
the exact mean (-1/200 days) is -1/100. -/
theorem C7_rounding_counterexample :
    (companiesHandler [jobFuture] 1 0 10).map CompanyInsight.avgDaysSinceApplication
        = [0] ∧
    roundHalfAway2 (avgDays 0 ((userRecords [jobFuture] 1).filter fun j =>
        decide (j.company = "Acme"))) = -(1/100) ∧
    ¬((0 : ℚ) = -(1/100)) := by
  refine ⟨?_, ?_, by norm_num⟩
  · rw [companiesHandler_jobFuture]
    rfl
  · have hfil : (userRecords [jobFuture] 1).filter (fun j => decide (j.company = "Acme"))
        = [jobFuture] := by decide
    rw [hfil]
    norm_num [roundHalfAway2, avgDays, jobFuture, msPerDay]

/-- C7 (amended): every percentage emitted by the analytics endpoints equals
the round-half-away-from-zero rounding of the exact percentage value (these
are nonnegative, where the code's `Math.round`-based rounding coincides with
half-away-from-zero); the company mean days-since-application equals the
half-away-from-zero rounding of the exact mean whenever that mean is
nonnegative — for a negative exact mean (only reachable with future-dated
applications) the code rounds half toward +∞ instead. -/
theorem C7_rounding_amended (jobs : List Job) (userId : Nat) (now startDate : Int)
    (limit : Nat) (p : TrendPeriod) :
    (∀ e ∈ companiesHandler jobs userId now limit,
      e.successRate = roundHalfAway2
        (if 0 < ((userRecords jobs userId).filter fun j =>
              decide (j.company = e.company)).length
         then ((((userRecords jobs userId).filter fun j =>
                  decide (j.company = e.company)).filter
                  fun j => isSuccessStatus j.status).length : ℚ)
              / (((userRecords jobs userId).filter fun j =>
                  decide (j.company = e.company)).length : ℚ) * 100
         else 0) ∧
      (0 ≤ avgDays now ((userRecords jobs userId).filter fun j =>
            decide (j.company = e.company)) →
        e.avgDaysSinceApplication = roundHalfAway2
          (avgDays now ((userRecords jobs userId).filter fun j =>
            decide (j.company = e.company))))) ∧
    (∀ e ∈ locationsHandler jobs userId,
      e.successRate = roundHalfAway2
        (if 0 < (((userRecords jobs userId).filter hasLocation).filter
              fun j => decide (j.location.getD "" = e.location)).length
         then (((((userRecords jobs userId).filter hasLocation).filter
                  fun j => decide (j.location.getD "" = e.location)).filter
                  fun j => isSuccessStatus j.status).length : ℚ)
              / ((((userRecords jobs userId).filter hasLocation).filter
                  fun j => decide (j.location.getD "" = e.location)).length : ℚ) * 100
         else 0)) ∧
    (∀ q ∈ interviewsHandler jobs userId,
      q.2.successRate =
        if 0 < q.2.total
        then roundHalfAway2 (((q.2.passed : ℚ) / (q.2.total : ℚ)) * 100)
        else 0) ∧
    (∀ e ∈ trendsHandler jobs userId startDate p,
      (e.applicationToInterviewRate =
        if 0 < e.totalApplications
        then roundHalfAway2 (((e.interviewing : ℚ) / (e.totalApplications : ℚ)) * 100)
        else 0) ∧
      (e.interviewToOfferRate =
        if 0 < e.interviewing
        then roundHalfAway2 (((e.offered : ℚ) / (e.interviewing : ℚ)) * 100)
        else 0) ∧
      (e.overallSuccessRate =
        if 0 < e.totalApplications
        then roundHalfAway2 (((e.offered : ℚ) / (e.totalApplications : ℚ)) * 100)
        else 0)) := by
  refine ⟨?_, ?_, ?_, ?_⟩
  · intro e he
    unfold companiesHandler at he
    obtain ⟨g, hg, rfl⟩ := List.mem_map.mp he
    obtain ⟨hds, hpos⟩ := mem_companyGroups hg
    dsimp only
    rw [← hds]
    have hsucc : ((g.2.map Job.status).filter isSuccessStatus).length
        = (g.2.filter fun j => isSuccessStatus j.status).length :=
      length_filter_map Job.status isSuccessStatus g.2
    constructor
    · rw [← hsucc]
      exact round2_ite_eq_roundHalfAway2 (by positivity)
    · intro hnn
      exact round2_eq_roundHalfAway2 hnn
  · intro e he
    unfold locationsHandler at he
    obtain ⟨g, hg, rfl⟩ := List.mem_map.mp he
    obtain ⟨hds, hpos, _⟩ := mem_locationGroups hg
    dsimp only
    rw [← hds]
    have hsucc : ((g.2.map Job.status).filter isSuccessStatus).length
        = (g.2.filter fun j => isSuccessStatus j.status).length :=
      length_filter_map Job.status isSuccessStatus g.2
    rw [← hsucc]
    exact round2_ite_eq_roundHalfAway2 (by positivity)
  · intro q hq
    unfold interviewsHandler at hq
    obtain ⟨r, hr, rfl⟩ := List.mem_map.mp hq
    dsimp only
    by_cases h0 : 0 < r.2.total
    · rw [if_pos h0, if_pos h0]
      exact round2_eq_roundHalfAway2 (by positivity)
    · rw [if_neg h0, if_neg h0]
  · intro e he
    unfold trendsHandler at he
    obtain ⟨g, hg, rfl⟩ := List.mem_map.mp he
    dsimp only
    refine ⟨?_, ?_, ?_⟩
    · by_cases h0 : 0 < g.2.length
      · rw [if_pos h0, if_pos h0]
        exact round2_eq_roundHalfAway2 (by positivity)
      · rw [if_neg h0, if_neg h0]
    · by_cases h0 : 0 < ((g.2.map Job.status).filter
          fun st => decide (st = Status.interviewing)).length
      · rw [if_pos h0, if_pos h0]
        exact round2_eq_roundHalfAway2 (by positivity)
      · rw [if_neg h0, if_neg h0]
    · by_cases h0 : 0 < g.2.length
      · rw [if_pos h0, if_pos h0]
        exact round2_eq_roundHalfAway2 (by positivity)
      · rw [if_neg h0, if_neg h0]

/-- Witness for the amended C7 at the concrete store `[jobAcme1]` one day
after its application date, whose companies view is `[acme1Insight]`. -/
theorem C7_rounding_amended_witness :
    acme1Insight.successRate = roundHalfAway2
      (if 0 < ((userRecords [jobAcme1] 1).filter fun j =>
            decide (j.company = acme1Insight.company)).length
       then ((((userRecords [jobAcme1] 1).filter fun j =>
                decide (j.company = acme1Insight.company)).filter
                fun j => isSuccessStatus j.status).length : ℚ)
            / (((userRecords [jobAcme1] 1).filter fun j =>
                decide (j.company = acme1Insight.company)).length : ℚ) * 100
       else 0) ∧
    (0 ≤ avgDays 1700086400000 ((userRecords [jobAcme1] 1).filter fun j =>
          decide (j.company = acme1Insight.company)) →
      acme1Insight.avgDaysSinceApplication = roundHalfAway2
        (avgDays 1700086400000 ((userRecords [jobAcme1] 1).filter fun j =>
          decide (j.company = acme1Insight.company)))) :=
  (C7_rounding_amended [jobAcme1] 1 1700086400000 0 10 .month).1 acme1Insight
    (by rw [companiesHandler_jobAcme1]; exact List.mem_singleton.mpr rfl)

/-- C8: an out-of-range or malformed `limit` (companies) or `months`
(timeline) parameter is rejected with the 400 `Validation failed` response,
whose value does not depend on the record store (the rejection precedes any
query); an absent parameter applies the defaults `limit = 10`, `months = 6`. -/
theorem C8_param_validation (limitParam monthsParam : Option ParamV)
    (jobs : List Job) (userId : Nat) (now : Int) (monthsAgo : Int → Int)
    (hbad1 : isIntInRange 1 50 limitParam = false)
    (hbad2 : isIntInRange 1 24 monthsParam = false) :
    companiesRoute limitParam jobs userId now
        = .validationFailed 400 "Validation failed" ∧
    timelineRoute monthsParam jobs userId monthsAgo
        = .validationFailed 400 "Validation failed" ∧
    companiesRoute none jobs userId now
        = .ok 200 (companiesHandler jobs userId now 10) ∧
    timelineRoute none jobs userId monthsAgo
        = .ok 200 (timelineHandler jobs userId (monthsAgo 6)) := by
  refine ⟨?_, ?_, ?_, ?_⟩
  · unfold companiesRoute
    rw [hbad1]
    rfl
  · unfold timelineRoute
    rw [hbad2]
    rfl
  · rfl
  · rfl

/-- Witness for C8 at the concrete out-of-range parameters `limit=51` and
`months=25` on a concrete store. -/
theorem C8_param_validation_witness :
    companiesRoute (some (.intVal 51)) [jobAcme1] 1 0
        = .validationFailed 400 "Validation failed" ∧
    timelineRoute (some (.intVal 25)) [jobAcme1] 1 (fun m => -m)
        = .validationFailed 400 "Validation failed" ∧
    companiesRoute none [jobAcme1] 1 0
        = .ok 200 (companiesHandler [jobAcme1] 1 0 10) ∧
    timelineRoute none [jobAcme1] 1 (fun m => -m)
        = .ok 200 (timelineHandler [jobAcme1] 1 (-6)) :=
  C8_param_validation (some (.intVal 51)) (some (.intVal 25)) [jobAcme1] 1 0
    (fun m => -m) rfl rfl

/-- Totality of the timeline sort comparison (ascending year, then month). -/
theorem ymLe_key_total :
    ∀ a b : (Int × Nat) × List Job,
      (fun x y : (Int × Nat) × List Job => ymLe x.1 y.1) a b = true ∨
      (fun x y : (Int × Nat) × List Job => ymLe x.1 y.1) b a = true := by
  intro a b
  unfold ymLe
  rcases lt_trichotomy a.1.1 b.1.1 with h | h | h
  · exact Or.inl (decide_eq_true (Or.inl h))
  · rcases Nat.le_total a.1.2 b.1.2 with h2 | h2
    · exact Or.inl (decide_eq_true (Or.inr ⟨h, h2⟩))
    · exact Or.inr (decide_eq_true (Or.inr ⟨h.symm, h2⟩))
  · exact Or.inr (decide_eq_true (Or.inl h))

/-- Transitivity of the timeline sort comparison. -/
theorem ymLe_key_trans :
    ∀ a b c : (Int × Nat) × List Job,
      (fun x y : (Int × Nat) × List Job => ymLe x.1 y.1) a b = true →
      (fun x y : (Int × Nat) × List Job => ymLe x.1 y.1) b c = true →
      (fun x y : (Int × Nat) × List Job => ymLe x.1 y.1) a c = true := by
  intro a b c hab hbc
  unfold ymLe at hab hbc ⊢
  have h1 := of_decide_eq_true hab
  have h2 := of_decide_eq_true hbc
  apply decide_eq_true
  rcases h1 with h1 | ⟨h1e, h1m⟩ <;> rcases h2 with h2 | ⟨h2e, h2m⟩
  · exact Or.inl (h1.trans h2)
  · exact Or.inl (h2e ▸ h1)
  · exact Or.inl (h1e ▸ h2)
  · exact Or.inr ⟨h1e.trans h2e, h1m.trans h2m⟩

/-- A weak year-month comparison together with inequality is strict. -/
theorem ymLt_of_le_ne {a b : Int × Nat} (hle : ymLe a b = true) (hne : a ≠ b) :
    ymLt a b := by
  unfold ymLe at hle
  unfold ymLt
  have h := of_decide_eq_true hle
  rcases h with h | ⟨he, hm⟩
  · exact Or.inl h
  · refine Or.inr ⟨he, ?_⟩
    rcases Nat.lt_or_ge a.2 b.2 with h2 | h2
    · exact h2
    · exact absurd (Prod.ext he (Nat.le_antisymm hm h2)) hne

theorem mem_timelineSorted {jobs : List Job} {userId : Nat} {startDate : Int}
    {g : (Int × Nat) × List Job} (h : g ∈ timelineSorted jobs userId startDate) :
    g.2 = (windowRecords jobs userId startDate).filter (fun j => decide (ymKey j = g.1))
      ∧ 0 < g.2.length := by
  unfold timelineSorted at h
  exact mem_groupBy_facts ((perm_sortLe _ _).mem_iff.mp h)

/-- C9: the timeline view groups the user's in-window records by calendar
year and month: every group's documents are exactly the window records of
its year-month key, the group keys are strictly ascending by year then
month (each key names one calendar month), and every emitted entry reports
the period as `year-month` with a zero-padded month, the group's record
count as total, and the per-status breakdown of exactly that month's
records; every in-window record lands in the bucket of its own month. -/
theorem C9_timeline_view (jobs : List Job) (userId : Nat) (startDate : Int) :
    (∀ g ∈ timelineSorted jobs userId startDate,
      g.2 = (windowRecords jobs userId startDate).filter
          (fun j => decide (ymKey j = g.1)) ∧ 0 < g.2.length) ∧
    ((timelineSorted jobs userId startDate).map Prod.fst).Pairwise ymLt ∧
    (∀ j ∈ windowRecords jobs userId startDate,
      ∃ g ∈ timelineSorted jobs userId startDate, g.1 = ymKey j) ∧
    (∀ e ∈ timelineHandler jobs userId startDate, ∃ y : Int, ∃ m : Nat,
      e.period = toString y ++ "-" ++ pad2 m ∧
      e.total = ((windowRecords jobs userId startDate).filter
          fun j => decide (ymKey j = (y, m))).length ∧
      ∀ st : Status, getCount e.statuses st
        = (((windowRecords jobs userId startDate).filter
            fun j => decide (ymKey j = (y, m))).filter
            fun j => decide (j.status = st)).length) := by
  refine ⟨fun g hg => mem_timelineSorted hg, ?_, ?_, ?_⟩
  · have hsorted := pairwise_sortLe ymLe_key_total ymLe_key_trans
      (groupBy ymKey (windowRecords jobs userId startDate))
    have hperm : (timelineSorted jobs userId startDate).map Prod.fst
        |>.Perm ((groupBy ymKey (windowRecords jobs userId startDate)).map Prod.fst) :=
      (perm_sortLe _ _).map Prod.fst
    have hnd : ((timelineSorted jobs userId startDate).map Prod.fst).Nodup :=
      hperm.nodup_iff.mpr (nodup_keys_groupBy _ _)
    have hnd2 : (timelineSorted jobs userId startDate).Pairwise
        (fun a b => a.1 ≠ b.1) := List.pairwise_map.mp hnd
    have hsorted2 : (timelineSorted jobs userId startDate).Pairwise
        (fun a b => ymLe a.1 b.1 = true) := hsorted
    rw [List.pairwise_map]
    exact (hsorted2.and hnd2).imp fun hab =>
      ymLt_of_le_ne hab.1 (fun h => hab.2 h)
  · intro j hj
    have hkey : ymKey j ∈ (windowRecords jobs userId startDate).map ymKey :=
      List.mem_map_of_mem ymKey hj
    have hgrp := groupBy_mem_of_key hkey
    have hsrt := (perm_sortLe (fun a b => ymLe a.1 b.1) _).mem_iff.mpr hgrp
    exact ⟨_, hsrt, rfl⟩
  · intro e he
    unfold timelineHandler at he
    obtain ⟨g, hg, rfl⟩ := List.mem_map.mp he
    obtain ⟨hds, _⟩ := mem_timelineSorted hg
    refine ⟨g.1.1, g.1.2, rfl, ?_, ?_⟩
    · dsimp only
      rw [hds]
    · intro st
      dsimp only
      rw [getCount_tally, length_filter_map, hds]

/-- Witness for C9 at the concrete store `[jobFuture]` with window start 0,
whose timeline is `[timelineFutureEntry]`. -/
theorem C9_timeline_view_witness :
    ∃ y : Int, ∃ m : Nat,
      timelineFutureEntry.period = toString y ++ "-" ++ pad2 m ∧
      timelineFutureEntry.total = ((windowRecords [jobFuture] 1 0).filter
          fun j => decide (ymKey j = (y, m))).length ∧
      ∀ st : Status, getCount timelineFutureEntry.statuses st
        = (((windowRecords [jobFuture] 1 0).filter
            fun j => decide (ymKey j = (y, m))).filter
            fun j => decide (j.status = st)).length :=
  (C9_timeline_view [jobFuture] 1 0).2.2.2 timelineFutureEntry
    (by rw [timelineHandler_jobFuture]; exact List.mem_singleton.mpr rfl)

/-- C10: adding an interview through the interviews sub-route transitions a
job whose status is `applied` to `interviewing`, and leaves the status of a
job in any other state unchanged. -/
theorem C10_addInterview_status (j : Job) (iv : Interview) (now : Int) :
    (addInterview j iv now).status
      = if j.status = .applied then .interviewing else j.status := by
  unfold addInterview
  by_cases h : j.status = .applied
  · simp [h]
    split <;> rfl
  · simp only [h, if_neg h, if_false]
    by_cases h2 : j.status = .interviewing ∧ j.followUpDate = none
    · simp [h2]
    · simp [h2]

end JobTracker
